import Mathlib

set_option maxHeartbeats 1000000

/- Verification of the GDI path recorder (dlls/gdi32/path.c).

The path buffer stores parallel arrays of device-space points and tag
bytes; here the two arrays are merged into one list of entries.  Tag
bytes use the wingdi constants PT_MOVETO = 6, PT_LINETO = 2,
PT_BEZIERTO = 4, with PT_CLOSEFIGURE = 1 as an additive bit.  The
world-to-device transform applied by LPtoDP is an external collaborator
and is modelled as a function parameter, as are the cubic flattener
GDI_Bezier and the floating-point arc geometry. -/

/-- Device-space integer point, mirroring the POINT structure. -/
structure POINT where
  x : Int
  y : Int
deriving DecidableEq

/-- PT_CLOSEFIGURE flag bit. -/
def PT_CLOSEFIGURE : Nat := 1

/-- PT_LINETO tag byte. -/
def PT_LINETO : Nat := 2

/-- PT_BEZIERTO tag byte. -/
def PT_BEZIERTO : Nat := 4

/-- PT_MOVETO tag byte. -/
def PT_MOVETO : Nat := 6

/-- Clearing the PT_CLOSEFIGURE bit of a tag byte (flags are bytes, so the
C expression flag AND NOT PT_CLOSEFIGURE is an AND with 254). -/
def stripClose (f : Nat) : Nat := f &&& 254

/-- Mirror of struct gdi_path: the merged points/flags arrays, the
new-stroke latch and the current cursor position. -/
structure gdi_path where
  entries : List (POINT × Nat)
  newStroke : Bool
  pos : POINT
deriving DecidableEq

/-- Default entry used for out-of-range reads that the C code guards
against dynamically. -/
def dfltEntry : POINT × Nat := (⟨0, 0⟩, 0)

/-- The flag bytes of a path with the CLOSE bit removed. -/
def strippedFlags (l : List (POINT × Nat)) : List Nat :=
  l.map fun e => stripClose e.2

/-- Retag the first entry of a freshly appended run, modelling the
type pointer fix-up idiom (type[0] = ...). -/
def retagFirst (ty : Nat) : List (POINT × Nat) → List (POINT × Nat)
  | [] => []
  | e :: rest => (e.1, ty) :: rest

/-- Retag the last entry of a freshly appended run, modelling
(type[count - 1] = ...). -/
def retagLast (ty : Nat) : List (POINT × Nat) → List (POINT × Nat)
  | [] => []
  | [e] => [(e.1, ty)]
  | e :: f :: rest => e :: retagLast ty (f :: rest)

/-- Set the PT_CLOSEFIGURE bit on the last entry, modelling close_figure
applied to the just-appended tail of the buffer. -/
def closeLastFlag : List (POINT × Nat) → List (POINT × Nat)
  | [] => []
  | [e] => [(e.1, e.2 ||| PT_CLOSEFIGURE)]
  | e :: f :: rest => e :: closeLastFlag (f :: rest)

/-- Model of add_points: append device-coordinate points with one tag. -/
def add_points (p : gdi_path) (pts : List POINT) (ty : Nat) : gdi_path :=
  { p with entries := p.entries ++ pts.map fun q => (q, ty) }

/-- Model of add_log_points: convert through the device transform and
append. -/
def add_log_points (xform : POINT → POINT) (p : gdi_path) (pts : List POINT)
    (ty : Nat) : gdi_path :=
  add_points p (pts.map xform) ty

/-- Model of start_new_stroke: continue the current stroke when the latch
is clear, the path is non-empty, the last entry does not carry CLOSE and
the last point equals the stored position; otherwise clear the latch and
append a synthetic PT_MOVETO at the current position. -/
def start_new_stroke (p : gdi_path) : gdi_path :=
  if p.newStroke = false ∧ p.entries ≠ [] ∧
      (p.entries.getLastD dfltEntry).2 &&& PT_CLOSEFIGURE = 0 ∧
      (p.entries.getLastD dfltEntry).1 = p.pos then
    p
  else
    { p with newStroke := false, entries := p.entries ++ [(p.pos, PT_MOVETO)] }

/-- Model of update_current_pos: position becomes the last stored point. -/
def update_current_pos (p : gdi_path) : gdi_path :=
  { p with pos := (p.entries.getLastD dfltEntry).1 }

/-- Model of close_figure: OR the CLOSE bit into the last flag. -/
def close_figure (p : gdi_path) : gdi_path :=
  { p with entries := closeLastFlag p.entries }

/-- Model of add_log_points_new_stroke. -/
def add_log_points_new_stroke (xform : POINT → POINT) (p : gdi_path)
    (pts : List POINT) (ty : Nat) : gdi_path :=
  update_current_pos (add_log_points xform (start_new_stroke p) pts ty)

/-- Model of pathdrv_MoveTo: set the latch and the transformed position. -/
def pathdrv_MoveTo (xform : POINT → POINT) (p : gdi_path) (x y : Int) : gdi_path :=
  { p with newStroke := true, pos := xform ⟨x, y⟩ }

/-- Model of pathdrv_LineTo. -/
def pathdrv_LineTo (xform : POINT → POINT) (p : gdi_path) (x y : Int) : gdi_path :=
  add_log_points_new_stroke xform p [⟨x, y⟩] PT_LINETO

/-- Model of pathdrv_PolylineTo. -/
def pathdrv_PolylineTo (xform : POINT → POINT) (p : gdi_path)
    (pts : List POINT) : gdi_path :=
  add_log_points_new_stroke xform p pts PT_LINETO

/-- Model of pathdrv_PolyBezierTo. -/
def pathdrv_PolyBezierTo (xform : POINT → POINT) (p : gdi_path)
    (pts : List POINT) : gdi_path :=
  add_log_points_new_stroke xform p pts PT_BEZIERTO

/-- Model of pathdrv_Polyline: append a PT_LINETO run and retag the first
entry (when present) as PT_MOVETO. -/
def pathdrv_Polyline (xform : POINT → POINT) (p : gdi_path)
    (pts : List POINT) : gdi_path :=
  { p with entries :=
      p.entries ++ retagFirst PT_MOVETO ((pts.map xform).map fun q => (q, PT_LINETO)) }

/-- Model of pathdrv_Polygon: as Polyline, and additionally retag the last
entry as PT_LINETO with CLOSE when more than one point was given. -/
def pathdrv_Polygon (xform : POINT → POINT) (p : gdi_path)
    (pts : List POINT) : gdi_path :=
  let base := retagFirst PT_MOVETO ((pts.map xform).map fun q => (q, PT_LINETO))
  let base2 := if 1 < pts.length then retagLast (PT_LINETO ||| PT_CLOSEFIGURE) base else base
  { p with entries := p.entries ++ base2 }

/-- Model of pathdrv_PolyBezier: append a PT_BEZIERTO run and retag the
first entry as PT_MOVETO. -/
def pathdrv_PolyBezier (xform : POINT → POINT) (p : gdi_path)
    (pts : List POINT) : gdi_path :=
  { p with entries :=
      p.entries ++ retagFirst PT_MOVETO ((pts.map xform).map fun q => (q, PT_BEZIERTO)) }

/-- The per-segment appended entries of PolyPolygon / PolyPolyline: each
segment of counts[i] points is appended as PT_LINETO, its first entry is
retagged PT_MOVETO, and for polygons its last entry becomes PT_LINETO
with CLOSE. -/
def polyPolySegs (close : Bool) : List Nat → List POINT → List (POINT × Nat)
  | [], _ => []
  | c :: rest, pts =>
    let seg := retagFirst PT_MOVETO ((pts.take c).map fun q => (q, PT_LINETO))
    let seg2 := if close then retagLast (PT_LINETO ||| PT_CLOSEFIGURE) seg else seg
    seg2 ++ polyPolySegs close rest (pts.drop c)

/-- Model of pathdrv_PolyPolygon: fail (path untouched) when there are no
polygons or some count is below 2; otherwise append all segments. -/
def pathdrv_PolyPolygon (xform : POINT → POINT) (p : gdi_path)
    (pts : List POINT) (counts : List Int) : Bool × gdi_path :=
  if counts.isEmpty then (false, p)
  else if counts.any fun c => decide (c < 2) then (false, p)
  else (true, { p with entries :=
      p.entries ++ polyPolySegs true (counts.map Int.toNat) (pts.map xform) })

/-- Model of pathdrv_PolyPolyline: as PolyPolygon but without closing the
segments (counts are DWORDs in the source, hence naturals here). -/
def pathdrv_PolyPolyline (xform : POINT → POINT) (p : gdi_path)
    (pts : List POINT) (counts : List Nat) : Bool × gdi_path :=
  if counts.isEmpty then (false, p)
  else if counts.any fun c => decide (c < 2) then (false, p)
  else (true, { p with entries :=
      p.entries ++ polyPolySegs false counts (pts.map xform) })

/-- Model of PATH_CheckCorners: transform both corners to device
coordinates, order them so corner 0 is top-left and corner 1 bottom-right,
and in GM_COMPATIBLE mode pull the bottom-right corner in by one on each
axis. -/
def PATH_CheckCorners (xform : POINT → POINT) (compat : Bool)
    (x1 y1 x2 y2 : Int) : POINT × POINT :=
  let c0 := xform ⟨x1, y1⟩
  let c1 := xform ⟨x2, y2⟩
  let px := if c0.x > c1.x then (c1.x, c0.x) else (c0.x, c1.x)
  let py := if c0.y > c1.y then (c1.y, c0.y) else (c0.y, c1.y)
  let d : Int := if compat then 1 else 0
  (⟨px.1, py.1⟩, ⟨px.2 - d, py.2 - d⟩)

/-- Model of pathdrv_Rectangle: append the four corner points as a
PT_LINETO run, retag the first as PT_MOVETO and OR CLOSE into the last. -/
def pathdrv_Rectangle (xform : POINT → POINT) (compat : Bool) (p : gdi_path)
    (x1 y1 x2 y2 : Int) : gdi_path :=
  let c := PATH_CheckCorners xform compat x1 y1 x2 y2
  let pts : List POINT := [⟨c.2.x, c.1.y⟩, c.1, ⟨c.1.x, c.2.y⟩, c.2]
  { p with entries :=
      p.entries ++ closeLastFlag (retagFirst PT_MOVETO (pts.map fun q => (q, PT_LINETO))) }

/-- Index of the last entry whose flag byte is exactly PT_MOVETO, or 0,
as computed by the scan at the top of pathdrv_PolyDraw. -/
def initLastmove (l : List (POINT × Nat)) : Nat :=
  l.enum.foldl (fun acc e => if e.2.2 = PT_MOVETO then e.1 else acc) 0

/-- The close handling at the bottom of the PolyDraw loop: when the
consumed type byte carries CLOSE, close the figure and reset the position
to the point recorded at the last move index. -/
def doClose (p : gdi_path) (lastmove : Nat) (t : Nat) : gdi_path :=
  if t &&& PT_CLOSEFIGURE ≠ 0 then
    let q := close_figure p
    { q with pos := (q.entries.getD lastmove dfltEntry).1 }
  else p

/-- The pathdrv_PolyDraw loop over the (point, type) stream.  A PT_MOVETO
byte updates latch, position and last-move index; PT_LINETO (with or
without CLOSE) extends the stroke; a PT_BEZIERTO byte must head a run of
three PT_BEZIERTO bytes (CLOSE allowed on the third only); any other byte
aborts with the position rolled back to its value at entry. -/
def polyDrawLoop (xform : POINT → POINT) (origPos : POINT) :
    List (POINT × Nat) → gdi_path → Nat → Bool × gdi_path
  | [], p, _ => (true, p)
  | (pt, t) :: rest, p, lastmove =>
    if t = PT_MOVETO then
      polyDrawLoop xform origPos rest
        { p with newStroke := true, pos := xform pt } p.entries.length
    else if t = PT_LINETO ∨ t = (PT_LINETO ||| PT_CLOSEFIGURE) then
      polyDrawLoop xform origPos rest
        (doClose (add_log_points_new_stroke xform p [pt] PT_LINETO) lastmove t) lastmove
    else if t = PT_BEZIERTO then
      match rest with
      | (pt1, t1) :: (pt2, t2) :: rest2 =>
        if t1 = PT_BEZIERTO ∧ t2 &&& 254 = PT_BEZIERTO then
          polyDrawLoop xform origPos rest2
            (doClose (add_log_points_new_stroke xform p [pt, pt1, pt2] PT_BEZIERTO)
              lastmove t2) lastmove
        else (false, { p with pos := origPos })
      | _ => (false, { p with pos := origPos })
    else (false, { p with pos := origPos })

/-- Model of pathdrv_PolyDraw. -/
def pathdrv_PolyDraw (xform : POINT → POINT) (p : gdi_path)
    (items : List (POINT × Nat)) : Bool × gdi_path :=
  polyDrawLoop xform p.pos items p (initLastmove p.entries)

/-- The type streams accepted by the PolyDraw loop: the bytes it examines
are PT_MOVETO, PT_LINETO possibly with CLOSE, or a PT_BEZIERTO heading a
run of three (CLOSE allowed only on the third). -/
def goodTypes : List Nat → Bool
  | [] => true
  | t :: rest =>
    if t = PT_MOVETO then goodTypes rest
    else if t = PT_LINETO ∨ t = (PT_LINETO ||| PT_CLOSEFIGURE) then goodTypes rest
    else if t = PT_BEZIERTO then
      match rest with
      | t1 :: t2 :: rest2 =>
        decide (t1 = PT_BEZIERTO) && decide (t2 &&& 254 = PT_BEZIERTO) && goodTypes rest2
      | _ => false
    else false

/-- Model of pathdrv_CloseFigure: close the last entry when there is one. -/
def pathdrv_CloseFigure (p : gdi_path) : gdi_path :=
  if p.entries.isEmpty then p else close_figure p

/-- Model of PATH_AddFlatBezier: run the external flattener on the four
control points, drop its first point (already in the buffer) and append
the rest as PT_LINETO, closing the last one when asked. -/
def PATH_AddFlatBezier (fl : POINT → POINT → POINT → POINT → List POINT)
    (a b c d : POINT) (closed : Bool) : List (POINT × Nat) :=
  let seg := ((fl a b c d).drop 1).map fun q => (q, PT_LINETO)
  if closed then closeLastFlag seg else seg

/-- The PATH_FlattenPath loop.  MOVE and LINE entries are copied verbatim;
a BEZIER entry consumes the previous source point and the two following
entries, emitting the flattened polyline, and the CLOSE bit of the third
triple entry is propagated.  The accumulator carries the previous source
point; the unreachable short-tail case of a malformed path (where the C
code would read past the array) yields the empty suffix. -/
def flattenLoop (fl : POINT → POINT → POINT → POINT → List POINT)
    (prev : POINT) : List (POINT × Nat) → List (POINT × Nat)
  | [] => []
  | (pt, f) :: rest =>
    if stripClose f = PT_MOVETO ∨ stripClose f = PT_LINETO then
      (pt, f) :: flattenLoop fl pt rest
    else if stripClose f = PT_BEZIERTO then
      match rest with
      | (b2, _) :: (b3, f3) :: rest2 =>
        PATH_AddFlatBezier fl prev pt b2 b3 (f3 &&& PT_CLOSEFIGURE ≠ 0) ++
          flattenLoop fl b3 rest2
      | _ => []
    else flattenLoop fl pt rest

/-- Model of PATH_FlattenPath (the fresh path starts with a clear buffer,
set latch and origin position, as allocated by alloc_gdi_path). -/
def PATH_FlattenPath (fl : POINT → POINT → POINT → POINT → List POINT)
    (p : gdi_path) : gdi_path :=
  { entries := flattenLoop fl ⟨0, 0⟩ p.entries, newStroke := true, pos := ⟨0, 0⟩ }

/-- Error codes surfaced by the path entry points. -/
inductive GdiErr where
  | CAN_NOT_COMPLETE
  | INVALID_PARAMETER
  | NOT_ENOUGH_MEMORY
deriving DecidableEq

/-- Model of GetPath over the committed path of a device context: a size
of 0 reports the count, an undersized buffer is INVALID_PARAMETER, and
otherwise the points (taken back to logical coordinates by the inverse
transform) and the tags are copied out. -/
def GetPath (dptolp : POINT → POINT) (dcPath : Option gdi_path) (size : Nat) :
    Except GdiErr (Nat × List POINT × List Nat) :=
  match dcPath with
  | none => .error .CAN_NOT_COMPLETE
  | some path =>
    if size = 0 then .ok (path.entries.length, [], [])
    else if size < path.entries.length then .error .INVALID_PARAMETER
    else .ok (path.entries.length,
      path.entries.map fun e => dptolp e.1,
      path.entries.map fun e => e.2)

/-- The polygon-counting loop of path_to_region, walking the flag bytes
from index 1 with the index of the last PT_MOVETO in pos; the final
partial polygon is emitted when it has more than one entry. -/
def rgnLoop : Nat → Nat → List Nat → List Nat
  | i, pos, [] => if i > pos + 1 then [i - pos] else []
  | i, pos, f :: rest =>
    if f = PT_MOVETO then (i - pos) :: rgnLoop (i + 1) i rest
    else rgnLoop (i + 1) pos rest

/-- The per-polygon counts computed by path_to_region before it calls the
external region constructor. -/
def path_to_region_counts (flags : List Nat) : List Nat :=
  if flags.length = 0 then [] else rgnLoop 1 0 (flags.drop 1)

/-- Every maximal run that starts at an exact PT_MOVETO byte contains at
least two entries: no PT_MOVETO is last, and none is immediately followed
by another PT_MOVETO. -/
def moveRunsOK : List Nat → Bool
  | [] => true
  | [f] => !(f == PT_MOVETO)
  | f :: g :: rest => (!(f == PT_MOVETO) || !(g == PT_MOVETO)) && moveRunsOK (g :: rest)

/-- Model of PATH_Arc up to its degenerate-extent short-circuit; the
floating-point sweep construction that follows is outside the integer
embedding and is abstracted as the rest parameter. -/
def PATH_Arc (rest : gdi_path → Bool × gdi_path) (p : gdi_path)
    (x1 y1 x2 y2 xStart yStart xEnd yEnd direction lines : Int) : Bool × gdi_path :=
  if x1 = x2 ∨ y1 = y2 then (true, p) else rest p

/-- Model of pathdrv_Arc (lines = 0). -/
def pathdrv_Arc (rest : gdi_path → Bool × gdi_path) (p : gdi_path)
    (x1 y1 x2 y2 xs ys xe ye direction : Int) : Bool × gdi_path :=
  PATH_Arc rest p x1 y1 x2 y2 xs ys xe ye direction 0

/-- Model of pathdrv_ArcTo (lines = -1). -/
def pathdrv_ArcTo (rest : gdi_path → Bool × gdi_path) (p : gdi_path)
    (x1 y1 x2 y2 xs ys xe ye direction : Int) : Bool × gdi_path :=
  PATH_Arc rest p x1 y1 x2 y2 xs ys xe ye direction (-1)

/-- Model of pathdrv_Chord (lines = 1). -/
def pathdrv_Chord (rest : gdi_path → Bool × gdi_path) (p : gdi_path)
    (x1 y1 x2 y2 xs ys xe ye direction : Int) : Bool × gdi_path :=
  PATH_Arc rest p x1 y1 x2 y2 xs ys xe ye direction 1

/-- Model of pathdrv_Pie (lines = 2). -/
def pathdrv_Pie (rest : gdi_path → Bool × gdi_path) (p : gdi_path)
    (x1 y1 x2 y2 xs ys xe ye direction : Int) : Bool × gdi_path :=
  PATH_Arc rest p x1 y1 x2 y2 xs ys xe ye direction 2

/-- GDI object kind reported for the selected pen. -/
inductive PenObjType where
  | objPen
  | objExtPen
  | objOther
deriving DecidableEq

/-- The pen fields PATH_WidenPath reads. -/
structure PenInfo where
  objType : PenObjType
  style : Nat
  width : Int
deriving DecidableEq

/-- The device-context fields visible to the widener. -/
structure DC where
  path : Option gdi_path
  pen : Option PenInfo
deriving DecidableEq

/-- PS_TYPE_MASK pen-style mask (0x000F0000). -/
def PS_TYPE_MASK : Nat := 983040

/-- PS_COSMETIC pen type. -/
def PS_COSMETIC : Nat := 0

/-- Model of PATH_WidenPath up to its pen checks: a missing or foreign pen
object and an extended pen of cosmetic type fail with CAN_NOT_COMPLETE;
the floating-point widening that follows is abstracted as rest. -/
def PATH_WidenPath (rest : Except GdiErr gdi_path) (dc : DC) :
    Except GdiErr gdi_path :=
  match dc.pen with
  | none => .error .CAN_NOT_COMPLETE
  | some pen =>
    match pen.objType with
    | .objOther => .error .CAN_NOT_COMPLETE
    | _ =>
      if pen.objType = PenObjType.objExtPen ∧ pen.style &&& PS_TYPE_MASK = PS_COSMETIC
      then .error .CAN_NOT_COMPLETE
      else rest

/-- Model of nulldrv_WidenPath: require a committed path, then replace it
by the widened path, leaving the context untouched on failure. -/
def nulldrv_WidenPath (rest : Except GdiErr gdi_path) (dc : DC) :
    Except GdiErr Unit × DC :=
  match dc.path with
  | none => (.error .CAN_NOT_COMPLETE, dc)
  | some _ =>
    match PATH_WidenPath rest dc with
    | .error e => (.error e, dc)
    | .ok newp => (.ok (), { dc with path := some newp })

/-- First-tag check of the structural invariant, on stripped flags. -/
def firstIsMove : List Nat → Bool
  | [] => true
  | f :: _ => f == PT_MOVETO

/-- Bezier runs of the structural invariant: on stripped flags, every
maximal run of PT_BEZIERTO bytes parses into blocks of three. -/
def bezRuns : List Nat → Bool
  | [] => true
  | f :: rest =>
    if f = PT_BEZIERTO then
      match rest with
      | f1 :: f2 :: rest2 =>
        decide (f1 = PT_BEZIERTO) && decide (f2 = PT_BEZIERTO) && bezRuns rest2
      | _ => false
    else bezRuns rest

/-- The stripped flag bytes of a path. -/
def pathFlags (p : gdi_path) : List Nat := strippedFlags p.entries

/-- All stored flag bytes are among 2..7: a base tag of LINE, BEZIER or
MOVE with an optional CLOSE bit.  This holds for every byte the recorder
ever stores and strengthens the induction. -/
def flagsValid (l : List (POINT × Nat)) : Bool :=
  l.all fun e => decide (2 ≤ e.2 ∧ e.2 ≤ 7)

/-- The recorder invariant: first tag MOVE, Bezier runs in triples, and
all flag bytes well formed. -/
def pathOK (p : gdi_path) : Prop :=
  firstIsMove (pathFlags p) = true ∧ bezRuns (pathFlags p) = true ∧
    flagsValid p.entries = true

/-- One legal recorder call; operations taking logical points carry their
own device transform. -/
inductive RecCall where
  | moveTo (xform : POINT → POINT) (x y : Int)
  | lineTo (xform : POINT → POINT) (x y : Int)
  | polylineTo (xform : POINT → POINT) (pts : List POINT)
  | polyline (xform : POINT → POINT) (pts : List POINT)
  | polygon (xform : POINT → POINT) (pts : List POINT)
  | polyBezier (xform : POINT → POINT) (pts : List POINT)
  | polyBezierTo (xform : POINT → POINT) (pts : List POINT)
  | polyPolygon (xform : POINT → POINT) (pts : List POINT) (counts : List Int)
  | polyPolyline (xform : POINT → POINT) (pts : List POINT) (counts : List Nat)
  | polyDraw (xform : POINT → POINT) (items : List (POINT × Nat))
  | rectangle (xform : POINT → POINT) (compat : Bool) (x1 y1 x2 y2 : Int)
  | closeFigure

/-- Caller contract of each recorder call: PolyBezier takes 3n+1 points,
PolyBezierTo 3n points, and the poly-poly operations receive at least as
many points as their counts demand. -/
def legalCall : RecCall → Bool
  | .polyBezier _ pts => pts.length % 3 == 1
  | .polyBezierTo _ pts => pts.length % 3 == 0
  | .polyPolygon _ pts counts => decide ((counts.map Int.toNat).sum ≤ pts.length)
  | .polyPolyline _ pts counts => decide (counts.sum ≤ pts.length)
  | _ => true

/-- Execute one recorder call; for fallible calls the resulting path state
is kept (it is unchanged on the early failures, and PolyDraw keeps its
partial effects). -/
def execCall (c : RecCall) (p : gdi_path) : gdi_path :=
  match c with
  | .moveTo xf x y => pathdrv_MoveTo xf p x y
  | .lineTo xf x y => pathdrv_LineTo xf p x y
  | .polylineTo xf pts => pathdrv_PolylineTo xf p pts
  | .polyline xf pts => pathdrv_Polyline xf p pts
  | .polygon xf pts => pathdrv_Polygon xf p pts
  | .polyBezier xf pts => pathdrv_PolyBezier xf p pts
  | .polyBezierTo xf pts => pathdrv_PolyBezierTo xf p pts
  | .polyPolygon xf pts counts => (pathdrv_PolyPolygon xf p pts counts).2
  | .polyPolyline xf pts counts => (pathdrv_PolyPolyline xf p pts counts).2
  | .polyDraw xf items => (pathdrv_PolyDraw xf p items).2
  | .rectangle xf compat x1 y1 x2 y2 => pathdrv_Rectangle xf compat p x1 y1 x2 y2
  | .closeFigure => pathdrv_CloseFigure p

/-- The empty path created when recording starts (alloc_gdi_path sets the
latch and BeginPath stores the transformed cursor position). -/
def nulldrv_BeginPath (pos : POINT) : gdi_path :=
  { entries := [], newStroke := true, pos := pos }

/-- Run a sequence of recorder calls. -/
def runCalls (calls : List RecCall) (p : gdi_path) : gdi_path :=
  calls.foldl (fun q c => execCall c q) p

/-- Flag bytes of one PolyPolygon segment of c points as the claim states
them: MOVE, then LINEs, then LINE with CLOSE. -/
def polygonSegFlags (c : Nat) : List Nat :=
  PT_MOVETO :: (List.replicate (c - 2) PT_LINETO ++ [PT_LINETO ||| PT_CLOSEFIGURE])

/-- Flag bytes of one PolyPolyline segment of c points: MOVE then LINEs. -/
def polylineSegFlags (c : Nat) : List Nat :=
  PT_MOVETO :: List.replicate (c - 1) PT_LINETO

/-- Characterization of PATH_CheckCorners: corner 0 is the componentwise
minimum of the transformed corners, corner 1 the componentwise maximum
less one on each axis in GM_COMPATIBLE mode. -/
theorem PATH_CheckCorners_eq (xform : POINT → POINT) (compat : Bool)
    (x1 y1 x2 y2 : Int) :
    PATH_CheckCorners xform compat x1 y1 x2 y2 =
      (⟨min (xform ⟨x1, y1⟩).x (xform ⟨x2, y2⟩).x,
        min (xform ⟨x1, y1⟩).y (xform ⟨x2, y2⟩).y⟩,
       ⟨max (xform ⟨x1, y1⟩).x (xform ⟨x2, y2⟩).x - (if compat then 1 else 0),
        max (xform ⟨x1, y1⟩).y (xform ⟨x2, y2⟩).y - (if compat then 1 else 0)⟩) := by
  simp only [PATH_CheckCorners]
  split_ifs <;> simp_all [Prod.ext_iff, POINT.mk.injEq] <;> omega

/-- C5: for every input, including degenerate rectangles, pathdrv_Rectangle
appends exactly four entries tagged MOVE, LINE, LINE, LINE with CLOSE whose
points are (x2,y1), (x1,y1), (x1,y2), (x2,y2) of the device-transformed
corners normalized to top-left/bottom-right, the bottom-right corner being
decremented by one on each axis in COMPATIBLE mode. -/
theorem claim_C5 (xform : POINT → POINT) (compat : Bool) (p : gdi_path)
    (x1 y1 x2 y2 : Int) :
    (pathdrv_Rectangle xform compat p x1 y1 x2 y2).entries =
      p.entries ++
        [(⟨(PATH_CheckCorners xform compat x1 y1 x2 y2).2.x,
           (PATH_CheckCorners xform compat x1 y1 x2 y2).1.y⟩, PT_MOVETO),
         ((PATH_CheckCorners xform compat x1 y1 x2 y2).1, PT_LINETO),
         (⟨(PATH_CheckCorners xform compat x1 y1 x2 y2).1.x,
           (PATH_CheckCorners xform compat x1 y1 x2 y2).2.y⟩, PT_LINETO),
         ((PATH_CheckCorners xform compat x1 y1 x2 y2).2,
           PT_LINETO ||| PT_CLOSEFIGURE)] ∧
    (PATH_CheckCorners xform compat x1 y1 x2 y2).1 =
      ⟨min (xform ⟨x1, y1⟩).x (xform ⟨x2, y2⟩).x,
       min (xform ⟨x1, y1⟩).y (xform ⟨x2, y2⟩).y⟩ ∧
    (PATH_CheckCorners xform compat x1 y1 x2 y2).2 =
      ⟨max (xform ⟨x1, y1⟩).x (xform ⟨x2, y2⟩).x - (if compat then 1 else 0),
       max (xform ⟨x1, y1⟩).y (xform ⟨x2, y2⟩).y - (if compat then 1 else 0)⟩ := by
  refine ⟨?_, ?_, ?_⟩
  · simp [pathdrv_Rectangle, retagFirst, closeLastFlag]
  · rw [PATH_CheckCorners_eq]
  · rw [PATH_CheckCorners_eq]

/-- C8: every arc-family call with a degenerate extent (x1 = x2 or
y1 = y2) succeeds and leaves the whole path state untouched, whatever the
remaining arc construction would do. -/
theorem claim_C8 (rest : gdi_path → Bool × gdi_path) (p : gdi_path)
    (x1 y1 x2 y2 xs ys xe ye direction : Int) (h : x1 = x2 ∨ y1 = y2) :
    pathdrv_Arc rest p x1 y1 x2 y2 xs ys xe ye direction = (true, p) ∧
    pathdrv_ArcTo rest p x1 y1 x2 y2 xs ys xe ye direction = (true, p) ∧
    pathdrv_Chord rest p x1 y1 x2 y2 xs ys xe ye direction = (true, p) ∧
    pathdrv_Pie rest p x1 y1 x2 y2 xs ys xe ye direction = (true, p) := by
  rcases h with h | h <;>
    simp [pathdrv_Arc, pathdrv_ArcTo, pathdrv_Chord, pathdrv_Pie, PATH_Arc, h]

/-- Witness for C8 at a concrete degenerate input. -/
theorem claim_C8_witness :
    ((0 : Int) = 0 ∨ (1 : Int) = 2) ∧
    pathdrv_Arc (fun q => (false, q)) (nulldrv_BeginPath ⟨5, 5⟩)
      0 1 0 2 3 4 5 6 1 = (true, nulldrv_BeginPath ⟨5, 5⟩) := by
  refine ⟨Or.inl rfl, ?_⟩
  exact (claim_C8 (fun q => (false, q)) (nulldrv_BeginPath ⟨5, 5⟩)
    0 1 0 2 3 4 5 6 1 (Or.inl rfl)).1

/-- C4: GetPath on a context without a committed path fails with
CAN_NOT_COMPLETE; with size 0 it returns the entry count and copies
nothing; with a positive size below the count it fails with
INVALID_PARAMETER; and with a sufficient size it returns the count and
copies all points (inverse-transformed) and all tags. -/
theorem claim_C4 (dptolp : POINT → POINT) (path : gdi_path) (size : Nat) :
    GetPath dptolp none size = .error .CAN_NOT_COMPLETE ∧
    GetPath dptolp (some path) 0 = .ok (path.entries.length, [], []) ∧
    (0 < size → size < path.entries.length →
      GetPath dptolp (some path) size = .error .INVALID_PARAMETER) ∧
    (0 < size → path.entries.length ≤ size →
      GetPath dptolp (some path) size =
        .ok (path.entries.length,
          path.entries.map fun e => dptolp e.1,
          path.entries.map fun e => e.2)) := by
  refine ⟨rfl, by simp [GetPath], ?_, ?_⟩
  · intro h1 h2
    simp only [GetPath]
    rw [if_neg (by omega), if_pos h2]
  · intro h1 h2
    simp only [GetPath]
    rw [if_neg (by omega), if_neg (by omega)]

/-- Witness for C4 at a one-entry path queried with size 2. -/
theorem claim_C4_witness :
    0 < 2 ∧
    (gdi_path.mk [(⟨1, 2⟩, 6)] true ⟨0, 0⟩).entries.length ≤ 2 ∧
    GetPath id (some (gdi_path.mk [(⟨1, 2⟩, 6)] true ⟨0, 0⟩)) 2 =
      .ok ((gdi_path.mk [(⟨1, 2⟩, 6)] true ⟨0, 0⟩).entries.length,
        (gdi_path.mk [(⟨1, 2⟩, 6)] true ⟨0, 0⟩).entries.map fun e => id e.1,
        (gdi_path.mk [(⟨1, 2⟩, 6)] true ⟨0, 0⟩).entries.map fun e => e.2) :=
  ⟨by decide, by decide,
    (claim_C4 id (gdi_path.mk [(⟨1, 2⟩, 6)] true ⟨0, 0⟩) 2).2.2.2
      (by decide) (by decide)⟩

/-- C9: on a device context whose selected pen is an extended pen of
cosmetic type, WidenPath fails with CAN_NOT_COMPLETE and the context,
including its committed path, is unchanged. -/
theorem claim_C9 (rest : Except GdiErr gdi_path) (dc : DC) (pen : PenInfo)
    (hpen : dc.pen = some pen) (hext : pen.objType = PenObjType.objExtPen)
    (hcos : pen.style &&& PS_TYPE_MASK = PS_COSMETIC) :
    nulldrv_WidenPath rest dc = (.error .CAN_NOT_COMPLETE, dc) := by
  obtain ⟨dpath, dpen⟩ := dc
  obtain ⟨ot, st, w⟩ := pen
  simp only at hpen hext hcos
  subst hpen
  subst hext
  cases dpath with
  | none => rfl
  | some q => simp [nulldrv_WidenPath, PATH_WidenPath, hcos]

/-- Witness for C9 on a concrete context with a cosmetic extended pen. -/
theorem claim_C9_witness :
    (DC.mk (some (nulldrv_BeginPath ⟨0, 0⟩)) (some ⟨PenObjType.objExtPen, 5, 3⟩)).pen =
      some ⟨PenObjType.objExtPen, 5, 3⟩ ∧
    (PenInfo.mk PenObjType.objExtPen 5 3).objType = PenObjType.objExtPen ∧
    (PenInfo.mk PenObjType.objExtPen 5 3).style &&& PS_TYPE_MASK = PS_COSMETIC ∧
    nulldrv_WidenPath (.error .NOT_ENOUGH_MEMORY)
        (DC.mk (some (nulldrv_BeginPath ⟨0, 0⟩)) (some ⟨PenObjType.objExtPen, 5, 3⟩)) =
      (.error .CAN_NOT_COMPLETE,
        DC.mk (some (nulldrv_BeginPath ⟨0, 0⟩)) (some ⟨PenObjType.objExtPen, 5, 3⟩)) :=
  ⟨rfl, rfl, by decide,
    claim_C9 (.error .NOT_ENOUGH_MEMORY)
      (DC.mk (some (nulldrv_BeginPath ⟨0, 0⟩)) (some ⟨PenObjType.objExtPen, 5, 3⟩))
      ⟨PenObjType.objExtPen, 5, 3⟩ rfl rfl (by decide)⟩


/-- Unfolding lemma for goodTypes on a cons with a generic tail. -/
theorem goodTypes_cons (t : Nat) (rest : List Nat) :
    goodTypes (t :: rest) =
      if t = PT_MOVETO then goodTypes rest
      else if t = PT_LINETO ∨ t = PT_LINETO ||| PT_CLOSEFIGURE then goodTypes rest
      else if t = PT_BEZIERTO then
        match rest with
        | t1 :: t2 :: rest2 =>
          decide (t1 = PT_BEZIERTO) && decide (t2 &&& 254 = PT_BEZIERTO) && goodTypes rest2
        | _ => false
      else false := by
  rcases rest with _ | ⟨t1, _ | ⟨t2, rest2⟩⟩ <;> rfl

/-- Unfolding lemma for the PolyDraw loop on a cons with a generic tail. -/
theorem polyDrawLoop_cons (xform : POINT → POINT) (origPos pt : POINT) (t : Nat)
    (rest : List (POINT × Nat)) (p : gdi_path) (lm : Nat) :
    polyDrawLoop xform origPos ((pt, t) :: rest) p lm =
      if t = PT_MOVETO then
        polyDrawLoop xform origPos rest
          { p with newStroke := true, pos := xform pt } p.entries.length
      else if t = PT_LINETO ∨ t = PT_LINETO ||| PT_CLOSEFIGURE then
        polyDrawLoop xform origPos rest
          (doClose (add_log_points_new_stroke xform p [pt] PT_LINETO) lm t) lm
      else if t = PT_BEZIERTO then
        match rest with
        | (pt1, t1) :: (pt2, t2) :: rest2 =>
          if t1 = PT_BEZIERTO ∧ t2 &&& 254 = PT_BEZIERTO then
            polyDrawLoop xform origPos rest2
              (doClose (add_log_points_new_stroke xform p [pt, pt1, pt2] PT_BEZIERTO)
                lm t2) lm
          else (false, { p with pos := origPos })
        | _ => (false, { p with pos := origPos })
      else (false, { p with pos := origPos }) := by
  rcases rest with _ | ⟨⟨pt1, t1⟩, _ | ⟨⟨pt2, t2⟩, rest2⟩⟩ <;> rfl

/-- On a type stream rejected by goodTypes, the PolyDraw loop reports
failure and restores the entry position, whatever path state and
last-move index it reaches the bad byte with. -/
theorem polyDrawLoop_fail (xform : POINT → POINT) (origPos : POINT) :
    ∀ (items : List (POINT × Nat)) (p : gdi_path) (lm : Nat),
      goodTypes (items.map Prod.snd) = false →
      (polyDrawLoop xform origPos items p lm).1 = false ∧
      (polyDrawLoop xform origPos items p lm).2.pos = origPos := by
  intro items p lm
  induction items, p, lm using polyDrawLoop.induct xform origPos with
  | case1 p lm =>
    intro h
    simp [goodTypes] at h
  | case2 pt rest p lastmove ih =>
    intro h
    rw [List.map_cons, goodTypes_cons, if_pos rfl] at h
    rw [polyDrawLoop_cons, if_pos rfl]
    exact ih h
  | case3 pt t rest p lastmove h1 h2 ih =>
    intro h
    rw [List.map_cons, goodTypes_cons, if_neg h1, if_pos h2] at h
    rw [polyDrawLoop_cons, if_neg h1, if_pos h2]
    exact ih h
  | case4 pt p lastmove pt1 t1 pt2 t2 rest2 h4 h1 h2 ih =>
    intro h
    simp only [List.map_cons] at h
    rw [goodTypes_cons, if_neg h1, if_neg h2, if_pos rfl] at h
    simp only [h4.1, h4.2, decide_True, Bool.true_and] at h
    simp only [polyDrawLoop, if_pos h4]
    exact ih h
  | case5 pt p lastmove pt1 t1 pt2 t2 rest2 h4 h1 h2 =>
    simp only [polyDrawLoop, if_neg h4]
    exact fun _ => ⟨rfl, rfl⟩
  | case6 pt rest p lastmove hna h1 h2 =>
    intro h
    match rest, hna with
    | [], _ => exact ⟨rfl, rfl⟩
    | [(pt1, t1)], _ => exact ⟨rfl, rfl⟩
    | (pt1, t1) :: (pt2, t2) :: rest2, hna =>
      exact absurd rfl (hna pt1 t1 pt2 t2 rest2)
  | case7 pt t rest p lastmove h1 h2 h3 =>
    intro h
    rw [polyDrawLoop_cons, if_neg h1, if_neg h2, if_neg h3]
    exact ⟨rfl, rfl⟩

/-- C7: a PolyDraw input containing a type byte (at a position the loop
examines) that is neither MOVE, nor LINE optionally closed, nor a BEZIER
heading a run of three BEZIER bytes with CLOSE allowed only on the third,
makes the call fail and roll the current position back to its entry
value. -/
theorem claim_C7 (xform : POINT → POINT) (p : gdi_path)
    (items : List (POINT × Nat)) (h : goodTypes (items.map Prod.snd) = false) :
    (pathdrv_PolyDraw xform p items).1 = false ∧
    (pathdrv_PolyDraw xform p items).2.pos = p.pos :=
  polyDrawLoop_fail xform p.pos items p (initLastmove p.entries) h

/-- Witness for C7 on a stream whose second byte is an isolated BEZIER. -/
theorem claim_C7_witness :
    goodTypes (([((⟨1, 1⟩ : POINT), 2), (⟨2, 2⟩, 4)]).map Prod.snd) = false ∧
    (pathdrv_PolyDraw id (nulldrv_BeginPath ⟨7, 8⟩)
      [((⟨1, 1⟩ : POINT), 2), (⟨2, 2⟩, 4)]).1 = false ∧
    (pathdrv_PolyDraw id (nulldrv_BeginPath ⟨7, 8⟩)
      [((⟨1, 1⟩ : POINT), 2), (⟨2, 2⟩, 4)]).2.pos = (nulldrv_BeginPath ⟨7, 8⟩).pos :=
  ⟨by decide,
    (claim_C7 id (nulldrv_BeginPath ⟨7, 8⟩)
      [((⟨1, 1⟩ : POINT), 2), (⟨2, 2⟩, 4)] (by decide)).1,
    (claim_C7 id (nulldrv_BeginPath ⟨7, 8⟩)
      [((⟨1, 1⟩ : POINT), 2), (⟨2, 2⟩, 4)] (by decide)).2⟩

/-- The default value of getLastD is irrelevant on a non-empty list. -/
theorem getLastD_ne_nil {α : Type} (m : List α) (h : m ≠ []) (d d' : α) :
    m.getLastD d = m.getLastD d' := by
  cases m with
  | nil => exact absurd rfl h
  | cons a t => rw [List.getLastD_cons, List.getLastD_cons]

/-- getLastD of an append with a non-empty right part. -/
theorem getLastD_append {α : Type} (l m : List α) (d : α) (h : m ≠ []) :
    (l ++ m).getLastD d = m.getLastD d := by
  induction l generalizing d with
  | nil => rfl
  | cons a t ih =>
    rw [List.cons_append, List.getLastD_cons, ih a, getLastD_ne_nil m h a d]

/-- The last entry appended by add_log_points is the transformed last
input point with the given tag. -/
theorem getLastD_log_points (xform : POINT → POINT) (ty : Nat)
    (pts : List POINT) (h : pts ≠ []) (d' : POINT) :
    ((pts.map xform).map fun r => (r, ty)).getLastD dfltEntry =
      (xform (pts.getLastD d'), ty) := by
  induction pts generalizing d' with
  | nil => exact absurd rfl h
  | cons a t ih =>
    cases t with
    | nil => rfl
    | cons b u =>
      rw [List.map_cons, List.map_cons, List.getLastD_cons, List.getLastD_cons]
      rw [getLastD_ne_nil _ (by simp) (xform a, ty) dfltEntry]
      exact ih (by simp) a

/-- C2: a stroke-extending append inserts a synthetic MOVE at the stored
current position exactly when the new-stroke latch is set, the path is
empty, the last entry carries CLOSE, or the last point differs from the
stored position; and after a successful extension the current position is
the last appended (transformed) point. -/
theorem claim_C2 (xform : POINT → POINT) (p : gdi_path) (pts : List POINT)
    (ty : Nat) (hpts : pts ≠ []) :
    start_new_stroke p =
      (if p.newStroke = true ∨ p.entries = [] ∨
          (p.entries.getLastD dfltEntry).2 &&& PT_CLOSEFIGURE = 1 ∨
          (p.entries.getLastD dfltEntry).1 ≠ p.pos then
        { p with newStroke := false, entries := p.entries ++ [(p.pos, PT_MOVETO)] }
      else p) ∧
    (add_log_points_new_stroke xform p pts ty).pos =
      xform (pts.getLastD ⟨0, 0⟩) := by
  have hbit : (p.entries.getLastD dfltEntry).2 &&& PT_CLOSEFIGURE =
      (p.entries.getLastD dfltEntry).2 % 2 := by
    rw [PT_CLOSEFIGURE, Nat.and_one_is_mod]
  constructor
  · rw [start_new_stroke]
    by_cases h1 : p.newStroke = false ∧ p.entries ≠ [] ∧
        (p.entries.getLastD dfltEntry).2 &&& PT_CLOSEFIGURE = 0 ∧
        (p.entries.getLastD dfltEntry).1 = p.pos
    · obtain ⟨a, b, c, d⟩ := h1
      have hnc : ¬(p.newStroke = true ∨ p.entries = [] ∨
          (p.entries.getLastD dfltEntry).2 &&& PT_CLOSEFIGURE = 1 ∨
          (p.entries.getLastD dfltEntry).1 ≠ p.pos) := by
        rintro (hc | hc | hc | hc)
        · rw [a] at hc; exact Bool.false_ne_true hc
        · exact b hc
        · rw [hbit] at c hc; omega
        · exact hc d
      rw [if_pos ⟨a, b, c, d⟩, if_neg hnc]
    · have hcc : p.newStroke = true ∨ p.entries = [] ∨
          (p.entries.getLastD dfltEntry).2 &&& PT_CLOSEFIGURE = 1 ∨
          (p.entries.getLastD dfltEntry).1 ≠ p.pos := by
        by_contra hc
        push_neg at hc
        obtain ⟨a, b, c, d⟩ := hc
        rw [hbit] at c
        exact h1 ⟨by simpa using a, b, by rw [hbit]; omega, d⟩
      rw [if_neg h1, if_pos hcc]
  · rw [add_log_points_new_stroke, update_current_pos, add_log_points, add_points]
    dsimp only
    rw [getLastD_append _ _ _ (by simpa using hpts),
      getLastD_log_points xform ty pts hpts ⟨0, 0⟩]

/-- Witness for C2 with a single line point on a fresh path. -/
theorem claim_C2_witness :
    ([(⟨1, 2⟩ : POINT)] ≠ []) ∧
    (add_log_points_new_stroke id (nulldrv_BeginPath ⟨0, 0⟩) [⟨1, 2⟩] 2).pos =
      id (([(⟨1, 2⟩ : POINT)]).getLastD ⟨0, 0⟩) :=
  ⟨by decide,
    (claim_C2 id (nulldrv_BeginPath ⟨0, 0⟩) [⟨1, 2⟩] 2 (by decide)).2⟩

/-- Decomposition of the move-run condition at a cons. -/
theorem moveRunsOK_cons (f : Nat) (t : List Nat) (h : moveRunsOK (f :: t) = true) :
    (f = PT_MOVETO → t ≠ [] ∧ t.head? ≠ some PT_MOVETO) ∧ moveRunsOK t = true := by
  cases t with
  | nil =>
    simp only [moveRunsOK, Bool.not_eq_true', beq_eq_false_iff_ne, ne_eq] at h
    exact ⟨fun hf => absurd hf h, rfl⟩
  | cons g u =>
    simp only [moveRunsOK, Bool.and_eq_true, Bool.or_eq_true, Bool.not_eq_true',
      beq_eq_false_iff_ne, ne_eq] at h
    refine ⟨fun hf => ⟨by simp, ?_⟩, h.2⟩
    rcases h.1 with hg | hg
    · exact absurd hf hg
    · simp [hg]

/-- The polygon-count bound for the region loop: every emitted count is at
least two, so twice the number of polygons is bounded by the number of
entries scanned. -/
theorem rgnLoop_bound :
    ∀ (rest : List Nat) (i pos : Nat), moveRunsOK rest = true →
      (i = pos + 1 → rest.head? ≠ some PT_MOVETO) → pos + 1 ≤ i →
      2 * (rgnLoop i pos rest).length ≤ rest.length + (i - pos) := by
  intro rest
  induction rest with
  | nil =>
    intro i pos hok hhead hpos
    simp only [rgnLoop]
    split_ifs with h
    · simp only [List.length_cons, List.length_nil]
      omega
    · simp only [List.length_nil]
      omega
  | cons f t ih =>
    intro i pos hok hhead hpos
    obtain ⟨hmv, ht⟩ := moveRunsOK_cons f t hok
    simp only [rgnLoop]
    split_ifs with h
    · subst h
      obtain ⟨hne, hhd⟩ := hmv rfl
      have hge : pos + 2 ≤ i := by
        rcases Nat.lt_or_ge (pos + 1) i with hlt | hge
        · omega
        · exact absurd (by simp) (hhead (by omega))
      have hbd := ih (i + 1) i ht (fun _ => hhd) (by omega)
      simp only [List.length_cons]
      omega
    · have hbd := ih (i + 1) pos ht (fun hip => absurd hip (by omega)) (by omega)
      simp only [List.length_cons]
      omega

/-- C10: on a non-empty path whose first tag byte is PT_MOVETO and whose
maximal runs starting at a PT_MOVETO byte all have at least two entries,
the region bridge counts at most count / 2 polygons, so its internal
assertion holds and all writes to the counts buffer of count / 2 slots
stay in bounds. -/
theorem claim_C10 (flags : List Nat) (h0 : flags.head? = some PT_MOVETO)
    (h1 : moveRunsOK flags = true) :
    (path_to_region_counts flags).length ≤ flags.length / 2 := by
  cases flags with
  | nil => simp at h0
  | cons f t =>
    have hf : f = PT_MOVETO := by simpa using h0
    subst hf
    obtain ⟨hmv, ht⟩ := moveRunsOK_cons PT_MOVETO t h1
    obtain ⟨hne, hhd⟩ := hmv rfl
    have hbd := rgnLoop_bound t 1 0 ht (fun _ => hhd) (by omega)
    rw [path_to_region_counts, if_neg (by simp)]
    simp only [List.drop_succ_cons, List.drop_zero, List.length_cons]
    omega

/-- Witness for C10 on the two-entry path MOVE, LINE. -/
theorem claim_C10_witness :
    ([PT_MOVETO, PT_LINETO].head? = some PT_MOVETO) ∧
    moveRunsOK [PT_MOVETO, PT_LINETO] = true ∧
    (path_to_region_counts [PT_MOVETO, PT_LINETO]).length ≤
      ([PT_MOVETO, PT_LINETO] : List Nat).length / 2 :=
  ⟨rfl, by decide, claim_C10 [PT_MOVETO, PT_LINETO] rfl (by decide)⟩

/-- Unfolding lemma for the flatten loop on a cons with a generic tail. -/
theorem flattenLoop_cons (fl : POINT → POINT → POINT → POINT → List POINT)
    (prev pt : POINT) (f : Nat) (rest : List (POINT × Nat)) :
    flattenLoop fl prev ((pt, f) :: rest) =
      if stripClose f = PT_MOVETO ∨ stripClose f = PT_LINETO then
        (pt, f) :: flattenLoop fl pt rest
      else if stripClose f = PT_BEZIERTO then
        match rest with
        | (b2, _) :: (b3, f3) :: rest2 =>
          PATH_AddFlatBezier fl prev pt b2 b3 (f3 &&& PT_CLOSEFIGURE ≠ 0) ++
            flattenLoop fl b3 rest2
        | _ => []
      else flattenLoop fl pt rest := by
  rcases rest with _ | ⟨⟨b2, g2⟩, _ | ⟨⟨b3, f3⟩, rest2⟩⟩ <;> rfl

/-- Entries of a closed flattened run carry PT_LINETO, possibly with the
CLOSE bit on the last one. -/
theorem mem_closeLast_line (l : List POINT) (e : POINT × Nat)
    (h : e ∈ closeLastFlag (l.map fun q => (q, PT_LINETO))) :
    e.2 = PT_LINETO ∨ e.2 = PT_LINETO ||| PT_CLOSEFIGURE := by
  induction l with
  | nil => simp [closeLastFlag] at h
  | cons a t ih =>
    cases t with
    | nil =>
      simp only [List.map_cons, List.map_nil, closeLastFlag, List.mem_singleton] at h
      right
      rw [h]
    | cons b u =>
      simp only [List.map_cons, closeLastFlag, List.mem_cons] at h
      rcases h with h | h
      · left
        rw [h]
      · exact ih (by simpa [closeLastFlag] using h)

/-- Entries emitted by PATH_AddFlatBezier carry PT_LINETO, possibly with
the CLOSE bit. -/
theorem mem_flat_bezier (fl : POINT → POINT → POINT → POINT → List POINT)
    (a b c d : POINT) (cl : Bool) (e : POINT × Nat)
    (h : e ∈ PATH_AddFlatBezier fl a b c d cl) :
    e.2 = PT_LINETO ∨ e.2 = PT_LINETO ||| PT_CLOSEFIGURE := by
  rw [PATH_AddFlatBezier] at h
  cases cl with
  | true =>
    rw [if_pos rfl] at h
    exact mem_closeLast_line _ e h
  | false =>
    left
    simp only [if_neg Bool.false_ne_true] at h
    obtain ⟨q, hq, he⟩ := List.mem_map.1 h
    rw [← he]

/-- No entry produced by the flatten loop carries the BEZIER tag. -/
theorem flattenLoop_no_bezier (fl : POINT → POINT → POINT → POINT → List POINT) :
    ∀ (prev : POINT) (l : List (POINT × Nat)) (e : POINT × Nat),
      e ∈ flattenLoop fl prev l → stripClose e.2 ≠ PT_BEZIERTO := by
  intro prev l
  induction prev, l using flattenLoop.induct fl with
  | case1 prev => intro e he; simp [flattenLoop] at he
  | case2 prev pt f rest hf ih =>
    intro e he
    rw [flattenLoop_cons, if_pos hf] at he
    rcases List.mem_cons.1 he with he | he
    · rw [he]
      rcases hf with hf | hf <;> rw [hf] <;> decide
    · exact ih e he
  | case3 prev pt f hf1 hf2 pt1 t1 pt2 t2 rest2 ih =>
    intro e he
    rw [flattenLoop_cons, if_neg hf1, if_pos hf2] at he
    rcases List.mem_append.1 he with he | he
    · rcases mem_flat_bezier fl prev pt pt1 pt2 _ e he with h2 | h2 <;>
        rw [h2] <;> decide
    · exact ih e he
  | case4 prev pt f rest hf1 hf2 hna =>
    intro e he
    rw [flattenLoop_cons, if_neg hf1, if_pos hf2] at he
    match rest, hna with
    | [], _ => simp at he
    | [(b2, g2)], _ => simp at he
    | (b2, g2) :: (b3, f3) :: rest2, hna =>
      exact absurd rfl (hna b2 g2 b3 f3 rest2)
  | case5 prev pt f rest hf1 hf2 ih =>
    intro e he
    rw [flattenLoop_cons, if_neg hf1, if_neg hf2] at he
    exact ih e he

/-- The flag bytes of a closed flattened run: PT_LINETO entries with the
CLOSE bit on the last one. -/
theorem closeLast_line_snd (l : List POINT) (h : l ≠ []) :
    (closeLastFlag (l.map fun q => (q, PT_LINETO))).map Prod.snd =
      List.replicate (l.length - 1) PT_LINETO ++ [PT_LINETO ||| PT_CLOSEFIGURE] := by
  induction l with
  | nil => exact absurd rfl h
  | cons a t ih =>
    cases t with
    | nil => rfl
    | cons b u =>
      have ih2 := ih (by simp)
      simp only [List.map_cons, List.length_cons, Nat.add_sub_cancel] at ih2
      simp only [List.map_cons, closeLastFlag, List.length_cons, Nat.add_sub_cancel]
      rw [List.replicate_succ, List.cons_append, ih2]

/-- The first components survive closeLastFlag unchanged. -/
theorem closeLast_fst (l : List (POINT × Nat)) :
    (closeLastFlag l).map Prod.fst = l.map Prod.fst := by
  induction l with
  | nil => rfl
  | cons a t ih =>
    cases t with
    | nil => rfl
    | cons b u =>
      simp only [closeLastFlag, List.map_cons]
      rw [ih]
      simp

/-- The flag bytes of an unclosed flattened run are all PT_LINETO. -/
theorem map_snd_line (l : List POINT) :
    (l.map fun q => (q, PT_LINETO)).map Prod.snd = List.replicate l.length PT_LINETO := by
  induction l with
  | nil => rfl
  | cons a t ih => simp [List.replicate_succ, ih]

/-- Unfolding of PATH_AddFlatBezier in the closed case. -/
theorem addFlatBezier_true (fl : POINT → POINT → POINT → POINT → List POINT)
    (a b c d : POINT) :
    PATH_AddFlatBezier fl a b c d true =
      closeLastFlag (((fl a b c d).drop 1).map fun q => (q, PT_LINETO)) := rfl

/-- Unfolding of PATH_AddFlatBezier in the open case. -/
theorem addFlatBezier_false (fl : POINT → POINT → POINT → POINT → List POINT)
    (a b c d : POINT) :
    PATH_AddFlatBezier fl a b c d false =
      ((fl a b c d).drop 1).map fun q => (q, PT_LINETO) := rfl

/-- C3: provided the external flattener returns at least two points,
flattening leaves no BEZIER-tagged entry; MOVE and LINE entries are
copied verbatim in order; and each Bezier triple is replaced by the
flattener polyline with its first point discarded, the rest appended as
LINE, and the CLOSE bit propagated to the last appended line. -/
theorem claim_C3 (fl : POINT → POINT → POINT → POINT → List POINT)
    (hfl : ∀ a b c d, 2 ≤ (fl a b c d).length)
    (p : gdi_path) (a b c d : POINT) :
    (∀ e ∈ (PATH_FlattenPath fl p).entries, stripClose e.2 ≠ PT_BEZIERTO) ∧
    (∀ (prev pt : POINT) (f : Nat) (rest : List (POINT × Nat)),
      stripClose f = PT_MOVETO ∨ stripClose f = PT_LINETO →
      flattenLoop fl prev ((pt, f) :: rest) = (pt, f) :: flattenLoop fl pt rest) ∧
    (PATH_AddFlatBezier fl a b c d false).map Prod.fst = (fl a b c d).drop 1 ∧
    (PATH_AddFlatBezier fl a b c d true).map Prod.fst = (fl a b c d).drop 1 ∧
    (PATH_AddFlatBezier fl a b c d false).map Prod.snd =
      List.replicate ((fl a b c d).length - 1) PT_LINETO ∧
    (PATH_AddFlatBezier fl a b c d true).map Prod.snd =
      List.replicate ((fl a b c d).length - 2) PT_LINETO ++
        [PT_LINETO ||| PT_CLOSEFIGURE] := by
  have hne : (fl a b c d).drop 1 ≠ [] := by
    have h2 := hfl a b c d
    have hl : ((fl a b c d).drop 1).length = (fl a b c d).length - 1 :=
      List.length_drop 1 _
    intro hemp
    rw [hemp] at hl
    simp only [List.length_nil] at hl
    omega
  have hsub : ((fl a b c d).drop 1).length - 1 = (fl a b c d).length - 2 := by
    rw [List.length_drop]
    omega
  refine ⟨fun e he => flattenLoop_no_bezier fl ⟨0, 0⟩ p.entries e he,
    ?_, ?_, ?_, ?_, ?_⟩
  · intro prev pt f rest hf
    rw [flattenLoop_cons, if_pos hf]
  · rw [addFlatBezier_false, List.map_map,
      show (Prod.fst ∘ fun q : POINT => (q, PT_LINETO)) = id from rfl, List.map_id]
  · rw [addFlatBezier_true, closeLast_fst, List.map_map,
      show (Prod.fst ∘ fun q : POINT => (q, PT_LINETO)) = id from rfl, List.map_id]
  · rw [addFlatBezier_false, map_snd_line, List.length_drop]
  · rw [addFlatBezier_true, closeLast_line_snd _ hne, hsub]

/-- Witness for C3 with a two-point flattener on a one-Bezier path. -/
theorem claim_C3_witness :
    (∀ (a b c d : POINT), 2 ≤ ([a, d] : List POINT).length) ∧
    (∀ e ∈ (PATH_FlattenPath (fun a _ _ d => [a, d])
        (gdi_path.mk [(⟨0, 0⟩, 6), (⟨1, 0⟩, 4), (⟨2, 0⟩, 4), (⟨3, 0⟩, 5)]
          false ⟨3, 0⟩)).entries,
      stripClose e.2 ≠ PT_BEZIERTO) :=
  ⟨fun a b c d => Nat.le.refl,
    (claim_C3 (fun a _ _ d => [a, d]) (fun a b c d => Nat.le.refl)
      (gdi_path.mk [(⟨0, 0⟩, 6), (⟨1, 0⟩, 4), (⟨2, 0⟩, 4), (⟨3, 0⟩, 5)]
        false ⟨3, 0⟩) ⟨0, 0⟩ ⟨0, 0⟩ ⟨0, 0⟩ ⟨0, 0⟩).1⟩

/-- The first components survive retagFirst unchanged. -/
theorem retagFirst_fst (ty : Nat) (l : List (POINT × Nat)) :
    (retagFirst ty l).map Prod.fst = l.map Prod.fst := by
  cases l <;> rfl

/-- The first components survive retagLast unchanged. -/
theorem retagLast_fst (ty : Nat) (l : List (POINT × Nat)) :
    (retagLast ty l).map Prod.fst = l.map Prod.fst := by
  induction l with
  | nil => rfl
  | cons a t ih =>
    cases t with
    | nil => rfl
    | cons b u =>
      simp only [retagLast, List.map_cons]
      rw [ih]
      simp

/-- The flag bytes after retagging the last entry of a line run. -/
theorem retagLast_line_snd (t : List POINT) (h : t ≠ []) :
    (retagLast (PT_LINETO ||| PT_CLOSEFIGURE)
        (t.map fun q => (q, PT_LINETO))).map Prod.snd =
      List.replicate (t.length - 1) PT_LINETO ++ [PT_LINETO ||| PT_CLOSEFIGURE] := by
  induction t with
  | nil => exact absurd rfl h
  | cons a s ih =>
    cases s with
    | nil => rfl
    | cons b u =>
      have ih2 := ih (by simp)
      simp only [List.map_cons, List.length_cons, Nat.add_sub_cancel] at ih2
      simp only [List.map_cons, retagLast, List.length_cons, Nat.add_sub_cancel]
      rw [List.replicate_succ, List.cons_append, ih2]

/-- The flag bytes of one PolyPolyline segment. -/
theorem polyline_seg_snd (l : List POINT) (h : l ≠ []) :
    (retagFirst PT_MOVETO (l.map fun q => (q, PT_LINETO))).map Prod.snd =
      polylineSegFlags l.length := by
  cases l with
  | nil => exact absurd rfl h
  | cons a t =>
    simp only [List.map_cons, retagFirst, polylineSegFlags, List.length_cons,
      Nat.add_sub_cancel]
    rw [map_snd_line]

/-- The flag bytes of one PolyPolygon segment. -/
theorem polygon_seg_snd (l : List POINT) (h : 2 ≤ l.length) :
    (retagLast (PT_LINETO ||| PT_CLOSEFIGURE)
        (retagFirst PT_MOVETO (l.map fun q => (q, PT_LINETO)))).map Prod.snd =
      polygonSegFlags l.length := by
  cases l with
  | nil => simp at h
  | cons a t =>
    cases t with
    | nil => simp at h
    | cons b u =>
      simp only [List.map_cons, retagFirst, retagLast, List.map_cons,
        polygonSegFlags, List.length_cons, Nat.add_sub_cancel]
      have ht : (b :: u).length - 1 = u.length := by simp
      have := retagLast_line_snd (b :: u) (by simp)
      rw [List.map_cons] at this
      rw [this, ht]
      simp

/-- Points and flags appended by the PolyPolygon / PolyPolyline segment
builder: the points are the first sum-of-counts input points in order,
and the flags are the per-segment MOVE / LINE / optional LINE-CLOSE
patterns. -/
theorem polyPolySegs_spec (close : Bool) :
    ∀ (counts : List Nat) (pts : List POINT),
      (∀ c ∈ counts, 2 ≤ c) → counts.sum ≤ pts.length →
      (polyPolySegs close counts pts).map Prod.fst = pts.take counts.sum ∧
      (polyPolySegs close counts pts).map Prod.snd =
        (counts.map fun c =>
          if close then polygonSegFlags c else polylineSegFlags c).flatten := by
  intro counts
  induction counts with
  | nil =>
    intro pts hge hsum
    exact ⟨by simp [polyPolySegs], by simp [polyPolySegs]⟩
  | cons c rest ih =>
    intro pts hge hsum
    rw [List.sum_cons] at hsum
    have hc : 2 ≤ c := hge c (by simp)
    have hcle : c ≤ pts.length := by omega
    have htlen : (pts.take c).length = c := by
      rw [List.length_take]
      omega
    have hdlen : rest.sum ≤ (pts.drop c).length := by
      rw [List.length_drop]
      omega
    obtain ⟨ihf, ihs⟩ := ih (pts.drop c) (fun x hx => hge x (by simp [hx])) hdlen
    constructor
    · simp only [polyPolySegs, List.map_append, List.sum_cons]
      rw [ihf, List.take_add]
      congr 1
      cases close with
      | true =>
        rw [if_pos rfl, retagLast_fst, retagFirst_fst, List.map_map]
        rw [show (Prod.fst ∘ fun q : POINT => (q, PT_LINETO)) = id from rfl,
          List.map_id]
      | false =>
        rw [if_neg Bool.false_ne_true, retagFirst_fst, List.map_map]
        rw [show (Prod.fst ∘ fun q : POINT => (q, PT_LINETO)) = id from rfl,
          List.map_id]
    · simp only [polyPolySegs, List.map_append, List.map_cons, List.flatten_cons]
      rw [ihs]
      congr 1
      cases close with
      | true =>
        rw [if_pos rfl, if_pos rfl]
        have hps := polygon_seg_snd (pts.take c) (by omega)
        rw [htlen] at hps
        exact hps
      | false =>
        rw [if_neg Bool.false_ne_true, if_neg Bool.false_ne_true]
        have hps := polyline_seg_snd (pts.take c)
          (by rw [← List.length_pos, htlen]; omega)
        rw [htlen] at hps
        exact hps

/-- C6: PolyPolygon and PolyPolyline fail, appending nothing, when the
segment list is empty or any count is below 2; otherwise all input points
are appended in order as LINE entries with each segment's first entry
retagged MOVE, and for PolyPolygon only, each segment's last entry tagged
LINE with CLOSE. -/
theorem claim_C6 (xform : POINT → POINT) (p : gdi_path) (pts : List POINT)
    (countsI : List Int) (countsN : List Nat) :
    ((countsI = [] ∨ ∃ c ∈ countsI, c < 2) →
      pathdrv_PolyPolygon xform p pts countsI = (false, p)) ∧
    ((countsN = [] ∨ ∃ c ∈ countsN, c < 2) →
      pathdrv_PolyPolyline xform p pts countsN = (false, p)) ∧
    (countsI ≠ [] → (∀ c ∈ countsI, 2 ≤ c) →
      pts.length = (countsI.map Int.toNat).sum →
      (pathdrv_PolyPolygon xform p pts countsI).1 = true ∧
      (pathdrv_PolyPolygon xform p pts countsI).2.entries.map Prod.fst =
        p.entries.map Prod.fst ++ pts.map xform ∧
      (pathdrv_PolyPolygon xform p pts countsI).2.entries.map Prod.snd =
        p.entries.map Prod.snd ++
          (countsI.map fun c => polygonSegFlags c.toNat).flatten) ∧
    (countsN ≠ [] → (∀ c ∈ countsN, 2 ≤ c) → pts.length = countsN.sum →
      (pathdrv_PolyPolyline xform p pts countsN).1 = true ∧
      (pathdrv_PolyPolyline xform p pts countsN).2.entries.map Prod.fst =
        p.entries.map Prod.fst ++ pts.map xform ∧
      (pathdrv_PolyPolyline xform p pts countsN).2.entries.map Prod.snd =
        p.entries.map Prod.snd ++ (countsN.map polylineSegFlags).flatten) := by
  refine ⟨?_, ?_, ?_, ?_⟩
  · rintro (h | ⟨c, hc, hlt⟩)
    · subst h
      rfl
    · rw [pathdrv_PolyPolygon]
      split_ifs with h1 h2
      · rfl
      · rfl
      · exfalso
        rw [List.any_eq_true] at h2
        exact h2 ⟨c, hc, by simpa using hlt⟩
  · rintro (h | ⟨c, hc, hlt⟩)
    · subst h
      rfl
    · rw [pathdrv_PolyPolyline]
      split_ifs with h1 h2
      · rfl
      · rfl
      · exfalso
        rw [List.any_eq_true] at h2
        exact h2 ⟨c, hc, by simpa using hlt⟩
  · intro hne hge hlen
    have h1 : ¬countsI.isEmpty = true := fun h => hne (List.isEmpty_iff.mp h)
    have h2 : ¬(countsI.any fun c => decide (c < 2)) = true := by
      rw [List.any_eq_true]
      rintro ⟨c, hc, hlt⟩
      have := hge c hc
      simp only [decide_eq_true_eq] at hlt
      omega
    have hge' : ∀ c ∈ countsI.map Int.toNat, 2 ≤ c := by
      intro c' hc'
      obtain ⟨c, hc, rfl⟩ := List.mem_map.1 hc'
      have := hge c hc
      omega
    have hsum : (countsI.map Int.toNat).sum ≤ (pts.map xform).length := by
      rw [List.length_map]
      omega
    obtain ⟨hf, hs⟩ :=
      polyPolySegs_spec true (countsI.map Int.toNat) (pts.map xform) hge' hsum
    rw [pathdrv_PolyPolygon, if_neg h1, if_neg h2]
    refine ⟨rfl, ?_, ?_⟩
    · simp only [List.map_append]
      rw [hf, show (countsI.map Int.toNat).sum = (pts.map xform).length by
        rw [List.length_map]; omega, List.take_length]
    · simp only [List.map_append]
      rw [hs, List.map_map]
      rfl
  · intro hne hge hlen
    have h1 : ¬countsN.isEmpty = true := fun h => hne (List.isEmpty_iff.mp h)
    have h2 : ¬(countsN.any fun c => decide (c < 2)) = true := by
      rw [List.any_eq_true]
      rintro ⟨c, hc, hlt⟩
      have := hge c hc
      simp only [decide_eq_true_eq] at hlt
      omega
    have hsum : countsN.sum ≤ (pts.map xform).length := by
      rw [List.length_map]
      omega
    obtain ⟨hf, hs⟩ := polyPolySegs_spec false countsN (pts.map xform) hge hsum
    rw [pathdrv_PolyPolyline, if_neg h1, if_neg h2]
    refine ⟨rfl, ?_, ?_⟩
    · simp only [List.map_append]
      rw [hf, show countsN.sum = (pts.map xform).length by
        rw [List.length_map]; omega, List.take_length]
    · simp only [List.map_append]
      rw [hs]
      rfl

/-- Witness for C6: two closed segments of two points each. -/
theorem claim_C6_witness :
    (([2, 2] : List Int) ≠ []) ∧
    (∀ c ∈ ([2, 2] : List Int), 2 ≤ c) ∧
    ([(⟨0, 0⟩ : POINT), ⟨1, 0⟩, ⟨2, 0⟩, ⟨3, 0⟩].length =
      (([2, 2] : List Int).map Int.toNat).sum) ∧
    ((pathdrv_PolyPolygon id (nulldrv_BeginPath ⟨9, 9⟩)
        [⟨0, 0⟩, ⟨1, 0⟩, ⟨2, 0⟩, ⟨3, 0⟩] [2, 2]).1 = true ∧
      (pathdrv_PolyPolygon id (nulldrv_BeginPath ⟨9, 9⟩)
        [⟨0, 0⟩, ⟨1, 0⟩, ⟨2, 0⟩, ⟨3, 0⟩] [2, 2]).2.entries.map Prod.fst =
        (nulldrv_BeginPath ⟨9, 9⟩).entries.map Prod.fst ++
          ([(⟨0, 0⟩ : POINT), ⟨1, 0⟩, ⟨2, 0⟩, ⟨3, 0⟩]).map id ∧
      (pathdrv_PolyPolygon id (nulldrv_BeginPath ⟨9, 9⟩)
        [⟨0, 0⟩, ⟨1, 0⟩, ⟨2, 0⟩, ⟨3, 0⟩] [2, 2]).2.entries.map Prod.snd =
        (nulldrv_BeginPath ⟨9, 9⟩).entries.map Prod.snd ++
          (([2, 2] : List Int).map fun c => polygonSegFlags c.toNat).flatten) :=
  ⟨by decide, by decide, by decide,
    (claim_C6 id (nulldrv_BeginPath ⟨9, 9⟩) [⟨0, 0⟩, ⟨1, 0⟩, ⟨2, 0⟩, ⟨3, 0⟩]
      [2, 2] [4]).2.2.1 (by decide) (by decide) (by decide)⟩

/-- Unfolding lemma for bezRuns on a cons with a generic tail. -/
theorem bezRuns_cons (f : Nat) (rest : List Nat) :
    bezRuns (f :: rest) =
      if f = PT_BEZIERTO then
        match rest with
        | f1 :: f2 :: rest2 =>
          decide (f1 = PT_BEZIERTO) && decide (f2 = PT_BEZIERTO) && bezRuns rest2
        | _ => false
      else bezRuns rest := by
  rcases rest with _ | ⟨f1, _ | ⟨f2, rest2⟩⟩ <;> rfl

/-- Unfolding lemma for bezRuns at the head of a Bezier triple. -/
theorem bezRuns_cons3 (f1 f2 : Nat) (rest2 : List Nat) :
    bezRuns (PT_BEZIERTO :: f1 :: f2 :: rest2) =
      (decide (f1 = PT_BEZIERTO) && decide (f2 = PT_BEZIERTO) && bezRuns rest2) := rfl

/-- Stripping the CLOSE bit fixes the MOVE byte. -/
theorem stripClose_MOVETO : stripClose PT_MOVETO = PT_MOVETO := by decide

/-- Stripping the CLOSE bit fixes the LINE byte. -/
theorem stripClose_LINETO : stripClose PT_LINETO = PT_LINETO := by decide

/-- Stripping the CLOSE bit fixes the BEZIER byte. -/
theorem stripClose_BEZIERTO : stripClose PT_BEZIERTO = PT_BEZIERTO := by decide

/-- Oring the CLOSE bit into a valid tag byte does not change its
stripped value. -/
theorem stripClose_or_close (v : Nat) (h2 : 2 ≤ v) (h7 : v ≤ 7) :
    stripClose (v ||| PT_CLOSEFIGURE) = stripClose v := by
  interval_cases v <;> decide

/-- Oring the CLOSE bit into a valid tag byte keeps it valid. -/
theorem valid_or_close (v : Nat) (h2 : 2 ≤ v) (h7 : v ≤ 7) :
    2 ≤ (v ||| PT_CLOSEFIGURE) ∧ (v ||| PT_CLOSEFIGURE) ≤ 7 := by
  interval_cases v <;> decide

/-- Concatenating two flag lists whose Bezier runs parse in triples gives
a list whose Bezier runs parse in triples. -/
theorem bezRuns_append :
    ∀ (l m : List Nat), bezRuns l = true → bezRuns m = true →
      bezRuns (l ++ m) = true := by
  intro l
  induction l using bezRuns.induct with
  | case1 => intro m _ hm; exact hm
  | case2 t1 t2 rest2 ih =>
    intro m hl hm
    rw [bezRuns_cons3] at hl
    simp only [Bool.and_eq_true, decide_eq_true_eq] at hl
    obtain ⟨⟨ht1, ht2⟩, hrest⟩ := hl
    subst ht1
    subst ht2
    rw [List.cons_append, List.cons_append, List.cons_append, bezRuns_cons3]
    simp [ih m hrest hm]
  | case3 rest hna =>
    intro m hl hm
    exfalso
    rw [bezRuns_cons, if_pos rfl] at hl
    match rest, hna with
    | [], _ => simp at hl
    | [t1], _ => simp at hl
    | t1 :: t2 :: rest2, hna => exact absurd rfl (hna t1 t2 rest2)
  | case4 t rest ht ih =>
    intro m hl hm
    rw [bezRuns_cons, if_neg ht] at hl
    rw [List.cons_append, bezRuns_cons, if_neg ht]
    exact ih m hl hm

/-- A flag list with no Bezier byte has trivially valid Bezier runs. -/
theorem bezRuns_noBez (l : List Nat) (h : ∀ f ∈ l, f ≠ PT_BEZIERTO) :
    bezRuns l = true := by
  induction l with
  | nil => rfl
  | cons f t ih =>
    rw [bezRuns_cons, if_neg (h f (by simp))]
    exact ih fun f hf => h f (by simp [hf])

/-- Bezier runs of a replicate of 3k Bezier bytes parse in triples. -/
theorem bezRuns_replicate (k : Nat) :
    bezRuns (List.replicate (3 * k) PT_BEZIERTO) = true := by
  induction k with
  | zero => rfl
  | succ n ih =>
    have h3 : 3 * (n + 1) = 3 * n + 1 + 1 + 1 := by ring
    rw [h3, List.replicate_succ, List.replicate_succ, List.replicate_succ,
      bezRuns_cons3]
    simp [ih]

/-- Bezier runs of any 0 mod 3 replicate of Bezier bytes parse in
triples. -/
theorem bezRuns_mod3 (n : Nat) (h : n % 3 = 0) :
    bezRuns (List.replicate n PT_BEZIERTO) = true := by
  obtain ⟨k, rfl⟩ := Nat.dvd_of_mod_eq_zero h
  exact bezRuns_replicate k

/-- Stripped flags of a constant-tagged run. -/
theorem strippedFlags_map_const (ty : Nat) (l : List POINT) :
    strippedFlags (l.map fun q => (q, ty)) =
      List.replicate l.length (stripClose ty) := by
  induction l with
  | nil => rfl
  | cons a t ih =>
    simp only [List.map_cons, strippedFlags, List.length_cons, List.replicate_succ]
    simp only [strippedFlags] at ih
    rw [ih]

/-- Appending preserves the three structural conditions when the appended
region has valid flags, parses its Bezier runs, and starts with MOVE in
case the path was empty. -/
theorem listOK_append (l new : List (POINT × Nat))
    (h1 : firstIsMove (strippedFlags l) = true)
    (h2 : bezRuns (strippedFlags l) = true)
    (h3 : flagsValid l = true)
    (hfirst : l = [] → firstIsMove (strippedFlags new) = true)
    (hbez : bezRuns (strippedFlags new) = true)
    (hval : flagsValid new = true) :
    firstIsMove (strippedFlags (l ++ new)) = true ∧
    bezRuns (strippedFlags (l ++ new)) = true ∧
    flagsValid (l ++ new) = true := by
  refine ⟨?_, ?_, ?_⟩
  · cases l with
    | nil => exact hfirst rfl
    | cons a t => exact h1
  · rw [strippedFlags, List.map_append]
    exact bezRuns_append _ _ h2 hbez
  · rw [flagsValid, List.all_append, Bool.and_eq_true]
    exact ⟨h3, hval⟩

/-- Oring CLOSE into the last flag does not change the stripped flags of
a well-formed entry list. -/
theorem strippedFlags_closeLast (l : List (POINT × Nat)) (hval : flagsValid l = true) :
    strippedFlags (closeLastFlag l) = strippedFlags l := by
  induction l with
  | nil => rfl
  | cons a t ih =>
    cases t with
    | nil =>
      obtain ⟨pt, v⟩ := a
      have hv : 2 ≤ v ∧ v ≤ 7 := by simpa [flagsValid] using hval
      obtain ⟨hv2, hv7⟩ := hv
      simp only [closeLastFlag, strippedFlags, List.map_cons, List.map_nil]
      rw [stripClose_or_close v hv2 hv7]
    | cons b u =>
      rw [flagsValid, List.all_cons, Bool.and_eq_true] at hval
      simp only [closeLastFlag, strippedFlags, List.map_cons]
      have := ih hval.2
      simp only [strippedFlags] at this
      rw [this]
      simp

/-- Oring CLOSE into the last flag keeps all flags valid. -/
theorem flagsValid_closeLast (l : List (POINT × Nat)) (hval : flagsValid l = true) :
    flagsValid (closeLastFlag l) = true := by
  induction l with
  | nil => rfl
  | cons a t ih =>
    cases t with
    | nil =>
      obtain ⟨pt, v⟩ := a
      have hv : 2 ≤ v ∧ v ≤ 7 := by simpa [flagsValid] using hval
      obtain ⟨hv2, hv7⟩ := hv
      simp only [closeLastFlag, flagsValid, List.all_cons, List.all_nil,
        Bool.and_true]
      exact decide_eq_true (valid_or_close v hv2 hv7)
    | cons b u =>
      rw [flagsValid, List.all_cons, Bool.and_eq_true] at hval
      rw [closeLastFlag, flagsValid, List.all_cons, Bool.and_eq_true]
      exact ⟨hval.1, ih hval.2⟩

/-- Closing the last figure entry preserves the recorder invariant. -/
theorem pathOK_close (p : gdi_path) (hp : pathOK p) : pathOK (close_figure p) := by
  obtain ⟨h1, h2, h3⟩ := hp
  have hs := strippedFlags_closeLast p.entries h3
  refine ⟨?_, ?_, flagsValid_closeLast p.entries h3⟩
  · show firstIsMove (strippedFlags (closeLastFlag p.entries)) = true
    rw [hs]
    exact h1
  · show bezRuns (strippedFlags (closeLastFlag p.entries)) = true
    rw [hs]
    exact h2

/-- The stripped flag of a synthetic MOVE entry is MOVE. -/
theorem firstIsMove_move_single (pt : POINT) :
    firstIsMove (strippedFlags [(pt, PT_MOVETO)]) = true := by
  show (stripClose PT_MOVETO == PT_MOVETO) = true
  rw [stripClose_MOVETO]
  rfl

/-- A single synthetic MOVE entry has no Bezier run. -/
theorem bezRuns_move_single (pt : POINT) :
    bezRuns (strippedFlags [(pt, PT_MOVETO)]) = true := by
  show bezRuns [stripClose PT_MOVETO] = true
  rw [stripClose_MOVETO]
  decide

/-- A single synthetic MOVE entry has a valid flag byte. -/
theorem flagsValid_move_single (pt : POINT) :
    flagsValid [(pt, PT_MOVETO)] = true := by
  show (decide (2 ≤ PT_MOVETO ∧ PT_MOVETO ≤ 7) && true) = true
  decide

/-- start_new_stroke preserves the invariant and leaves a non-empty
path. -/
theorem start_new_stroke_pathOK (p : gdi_path) (hp : pathOK p) :
    pathOK (start_new_stroke p) ∧ (start_new_stroke p).entries ≠ [] := by
  obtain ⟨h1, h2, h3⟩ := hp
  rw [start_new_stroke]
  split_ifs with h
  · exact ⟨⟨h1, h2, h3⟩, h.2.1⟩
  · constructor
    · exact listOK_append p.entries [(p.pos, PT_MOVETO)] h1 h2 h3
        (fun _ => firstIsMove_move_single p.pos) (bezRuns_move_single p.pos)
        (flagsValid_move_single p.pos)
    · simp

/-- A stroke extension with LINE entries, or with a whole number of
Bezier triples, preserves the recorder invariant. -/
theorem pathOK_extend (xform : POINT → POINT) (p : gdi_path) (pts : List POINT)
    (ty : Nat) (hty : ty = PT_LINETO ∨ (ty = PT_BEZIERTO ∧ pts.length % 3 = 0))
    (hp : pathOK p) : pathOK (add_log_points_new_stroke xform p pts ty) := by
  have hreg_bez : bezRuns (strippedFlags ((pts.map xform).map fun q => (q, ty))) = true := by
    rw [strippedFlags_map_const, List.length_map]
    rcases hty with h | ⟨h, hmod⟩
    · subst h
      apply bezRuns_noBez
      intro f hf
      rw [List.eq_of_mem_replicate hf, stripClose_LINETO]
      decide
    · subst h
      rw [stripClose_BEZIERTO]
      exact bezRuns_mod3 pts.length hmod
  have hreg_val : flagsValid ((pts.map xform).map fun q => (q, ty)) = true := by
    rw [flagsValid, List.all_eq_true]
    intro e he
    obtain ⟨q, hq, he'⟩ := List.mem_map.1 he
    rw [← he']
    show decide (2 ≤ ty ∧ ty ≤ 7) = true
    rcases hty with h | ⟨h, _⟩ <;> subst h <;> decide
  obtain ⟨⟨s1, s2, s3⟩, hne⟩ := start_new_stroke_pathOK p hp
  have hres := listOK_append (start_new_stroke p).entries
    ((pts.map xform).map fun q => (q, ty)) s1 s2 s3
    (fun h => absurd h hne) hreg_bez hreg_val
  exact ⟨hres.1, hres.2.1, hres.2.2⟩

/-- The close handling of the PolyDraw loop preserves the invariant. -/
theorem doClose_pathOK (p : gdi_path) (lm t : Nat) (hp : pathOK p) :
    pathOK (doClose p lm t) := by
  rw [doClose]
  split_ifs with h
  · have := pathOK_close p hp
    exact ⟨this.1, this.2.1, this.2.2⟩
  · exact hp

/-- The PolyDraw loop preserves the recorder invariant in every branch,
including the failing ones. -/
theorem polyDrawLoop_pathOK (xform : POINT → POINT) (origPos : POINT) :
    ∀ (items : List (POINT × Nat)) (p : gdi_path) (lm : Nat),
      pathOK p → pathOK (polyDrawLoop xform origPos items p lm).2 := by
  intro items p lm
  induction items, p, lm using polyDrawLoop.induct xform origPos with
  | case1 p lm =>
    intro hp
    simp only [polyDrawLoop]
    exact hp
  | case2 pt rest p lastmove ih =>
    intro hp
    rw [polyDrawLoop_cons, if_pos rfl]
    exact ih ⟨hp.1, hp.2.1, hp.2.2⟩
  | case3 pt t rest p lastmove h1 h2 ih =>
    intro hp
    rw [polyDrawLoop_cons, if_neg h1, if_pos h2]
    exact ih (doClose_pathOK _ _ _
      (pathOK_extend xform p [pt] PT_LINETO (Or.inl rfl) hp))
  | case4 pt p lastmove pt1 t1 pt2 t2 rest2 h4 h1 h2 ih =>
    intro hp
    simp only [polyDrawLoop, if_pos h4]
    exact ih (doClose_pathOK _ _ _
      (pathOK_extend xform p [pt, pt1, pt2] PT_BEZIERTO
        (Or.inr ⟨rfl, by simp⟩) hp))
  | case5 pt p lastmove pt1 t1 pt2 t2 rest2 h4 h1 h2 =>
    intro hp
    simp only [polyDrawLoop, if_neg h4]
    exact ⟨hp.1, hp.2.1, hp.2.2⟩
  | case6 pt rest p lastmove hna h1 h2 =>
    intro hp
    match rest, hna with
    | [], _ => exact ⟨hp.1, hp.2.1, hp.2.2⟩
    | [(pt1, t1)], _ => exact ⟨hp.1, hp.2.1, hp.2.2⟩
    | (pt1, t1) :: (pt2, t2) :: rest2, hna =>
      exact absurd rfl (hna pt1 t1 pt2 t2 rest2)
  | case7 pt t rest p lastmove h1 h2 h3 =>
    intro hp
    rw [polyDrawLoop_cons, if_neg h1, if_neg h2, if_neg h3]
    exact ⟨hp.1, hp.2.1, hp.2.2⟩

/-- Membership through retagFirst. -/
theorem mem_retagFirst (ty : Nat) (l : List (POINT × Nat)) (e : POINT × Nat)
    (h : e ∈ retagFirst ty l) : e.2 = ty ∨ e ∈ l := by
  cases l with
  | nil => simp [retagFirst] at h
  | cons a t =>
    rcases List.mem_cons.1 h with h | h
    · left
      rw [h]
    · right
      exact List.mem_cons.2 (Or.inr h)

/-- Membership through retagLast. -/
theorem mem_retagLast (ty : Nat) :
    ∀ (l : List (POINT × Nat)) (e : POINT × Nat),
      e ∈ retagLast ty l → e.2 = ty ∨ e ∈ l := by
  intro l
  induction l with
  | nil =>
    intro e h
    simp [retagLast] at h
  | cons a t ih =>
    intro e h
    cases t with
    | nil =>
      rw [List.mem_singleton.1 h]
      left
      rfl
    | cons b u =>
      rcases List.mem_cons.1 h with h | h
      · right
        rw [h]
        exact List.mem_cons_self a (b :: u)
      · rcases ih e h with h | h
        · left
          exact h
        · right
          exact List.mem_cons.2 (Or.inr h)

/-- A region whose flags are MOVE, LINE or LINE-CLOSE, starting with MOVE
when non-empty, satisfies the three structural conditions. -/
theorem listOK_of_line_flags (new : List (POINT × Nat))
    (hmem : ∀ e ∈ new,
      e.2 = PT_MOVETO ∨ e.2 = PT_LINETO ∨ e.2 = PT_LINETO ||| PT_CLOSEFIGURE)
    (hhead : ∀ a t, new = a :: t → a.2 = PT_MOVETO) :
    firstIsMove (strippedFlags new) = true ∧
    bezRuns (strippedFlags new) = true ∧ flagsValid new = true := by
  refine ⟨?_, ?_, ?_⟩
  · cases hn : new with
    | nil => rfl
    | cons a t =>
      have ha := hhead a t hn
      show (stripClose a.2 == PT_MOVETO) = true
      rw [ha, stripClose_MOVETO]
      rfl
  · apply bezRuns_noBez
    intro f hf
    obtain ⟨e, he, rfl⟩ := List.mem_map.1 hf
    rcases hmem e he with h | h | h <;> rw [h] <;> decide
  · rw [flagsValid, List.all_eq_true]
    intro e he
    rcases hmem e he with h | h | h <;> rw [h] <;> decide

/-- The head of a retagged constant run carries the retag byte. -/
theorem retagFirst_head (ty2 ty : Nat) (l : List POINT) (a : POINT × Nat)
    (t : List (POINT × Nat))
    (h : retagFirst ty2 (l.map fun q => (q, ty)) = a :: t) : a.2 = ty2 := by
  cases l with
  | nil => simp [retagFirst] at h
  | cons q qs =>
    simp only [List.map_cons, retagFirst] at h
    injection h with h1 _
    rw [← h1]

/-- The Polyline region satisfies the structural conditions. -/
theorem polyline_region_ok (xf : POINT → POINT) (pts : List POINT) :
    firstIsMove (strippedFlags (retagFirst PT_MOVETO
        ((pts.map xf).map fun q => (q, PT_LINETO)))) = true ∧
    bezRuns (strippedFlags (retagFirst PT_MOVETO
        ((pts.map xf).map fun q => (q, PT_LINETO)))) = true ∧
    flagsValid (retagFirst PT_MOVETO
        ((pts.map xf).map fun q => (q, PT_LINETO))) = true := by
  apply listOK_of_line_flags
  · intro e he
    rcases mem_retagFirst _ _ e he with h | h
    · left
      exact h
    · right
      left
      obtain ⟨q, hq, he'⟩ := List.mem_map.1 h
      rw [← he']
  · intro a t h
    exact retagFirst_head _ _ _ a t h

/-- The Polygon region satisfies the structural conditions. -/
theorem polygon_region_ok (xf : POINT → POINT) (pts : List POINT) :
    firstIsMove (strippedFlags (if 1 < pts.length then
        retagLast (PT_LINETO ||| PT_CLOSEFIGURE) (retagFirst PT_MOVETO
          ((pts.map xf).map fun q => (q, PT_LINETO)))
      else retagFirst PT_MOVETO
          ((pts.map xf).map fun q => (q, PT_LINETO)))) = true ∧
    bezRuns (strippedFlags (if 1 < pts.length then
        retagLast (PT_LINETO ||| PT_CLOSEFIGURE) (retagFirst PT_MOVETO
          ((pts.map xf).map fun q => (q, PT_LINETO)))
      else retagFirst PT_MOVETO
          ((pts.map xf).map fun q => (q, PT_LINETO)))) = true ∧
    flagsValid (if 1 < pts.length then
        retagLast (PT_LINETO ||| PT_CLOSEFIGURE) (retagFirst PT_MOVETO
          ((pts.map xf).map fun q => (q, PT_LINETO)))
      else retagFirst PT_MOVETO
          ((pts.map xf).map fun q => (q, PT_LINETO))) = true := by
  apply listOK_of_line_flags
  · intro e he
    split_ifs at he with hlen
    · rcases mem_retagLast _ _ e he with h | h
      · right
        right
        exact h
      · rcases mem_retagFirst _ _ e h with h | h
        · left
          exact h
        · right
          left
          obtain ⟨q, hq, he'⟩ := List.mem_map.1 h
          rw [← he']
    · rcases mem_retagFirst _ _ e he with h | h
      · left
        exact h
      · right
        left
        obtain ⟨q, hq, he'⟩ := List.mem_map.1 h
        rw [← he']
  · intro a t h
    split_ifs at h with hlen
    · cases pts with
      | nil => simp at hlen
      | cons q1 qs =>
        cases qs with
        | nil => simp at hlen
        | cons q2 qs2 =>
          injection h with h1 _
          rw [← h1]
    · exact retagFirst_head _ _ _ a t h

/-- The PolyBezier region (3n+1 points) satisfies the structural
conditions. -/
theorem polyBezier_region_ok (xf : POINT → POINT) (pts : List POINT)
    (hlen : pts.length % 3 = 1) :
    firstIsMove (strippedFlags (retagFirst PT_MOVETO
        ((pts.map xf).map fun q => (q, PT_BEZIERTO)))) = true ∧
    bezRuns (strippedFlags (retagFirst PT_MOVETO
        ((pts.map xf).map fun q => (q, PT_BEZIERTO)))) = true ∧
    flagsValid (retagFirst PT_MOVETO
        ((pts.map xf).map fun q => (q, PT_BEZIERTO))) = true := by
  cases pts with
  | nil => simp at hlen
  | cons q qs =>
    refine ⟨?_, ?_, ?_⟩
    · show (stripClose PT_MOVETO == PT_MOVETO) = true
      rw [stripClose_MOVETO]
      rfl
    · show bezRuns (stripClose PT_MOVETO ::
        strippedFlags ((qs.map xf).map fun r => (r, PT_BEZIERTO))) = true
      rw [stripClose_MOVETO, strippedFlags_map_const, List.length_map,
        stripClose_BEZIERTO, bezRuns_cons, if_neg (by decide)]
      apply bezRuns_mod3
      simp only [List.length_cons] at hlen
      omega
    · rw [flagsValid, List.all_eq_true]
      intro e he
      rcases List.mem_cons.1 he with h | h
      · rw [h]
        show decide (2 ≤ PT_MOVETO ∧ PT_MOVETO ≤ 7) = true
        decide
      · obtain ⟨q', hq', he'⟩ := List.mem_map.1 h
        rw [← he']
        show decide (2 ≤ PT_BEZIERTO ∧ PT_BEZIERTO ≤ 7) = true
        decide

/-- Bytes of a per-segment flag list are MOVE, LINE or LINE-CLOSE. -/
theorem mem_segFlags (close : Bool) (c v : Nat)
    (h : v ∈ (if close then polygonSegFlags c else polylineSegFlags c)) :
    v = PT_MOVETO ∨ v = PT_LINETO ∨ v = PT_LINETO ||| PT_CLOSEFIGURE := by
  cases close with
  | true =>
    rw [if_pos rfl] at h
    simp only [polygonSegFlags, List.mem_cons, List.mem_append,
      List.mem_singleton, List.mem_replicate] at h
    tauto
  | false =>
    rw [if_neg Bool.false_ne_true] at h
    simp only [polylineSegFlags, List.mem_cons, List.mem_replicate] at h
    tauto

/-- The PolyPolygon / PolyPolyline region satisfies the structural
conditions. -/
theorem polyPoly_region_ok (close : Bool) (counts : List Nat) (pts : List POINT)
    (hne : counts ≠ []) (hge : ∀ c ∈ counts, 2 ≤ c)
    (hsum : counts.sum ≤ pts.length) :
    firstIsMove (strippedFlags (polyPolySegs close counts pts)) = true ∧
    bezRuns (strippedFlags (polyPolySegs close counts pts)) = true ∧
    flagsValid (polyPolySegs close counts pts) = true := by
  obtain ⟨hf, hs⟩ := polyPolySegs_spec close counts pts hge hsum
  apply listOK_of_line_flags
  · intro e he
    have h2 : e.2 ∈ (polyPolySegs close counts pts).map Prod.snd :=
      List.mem_map_of_mem _ he
    rw [hs] at h2
    obtain ⟨ll, hll, hv⟩ := List.mem_flatten.1 h2
    obtain ⟨c, hc, rfl⟩ := List.mem_map.1 hll
    exact mem_segFlags close c e.2 hv
  · intro a t hn
    rw [hn, List.map_cons] at hs
    cases counts with
    | nil => exact absurd rfl hne
    | cons c cr =>
      rw [List.map_cons, List.flatten_cons] at hs
      cases close with
      | true =>
        rw [if_pos rfl] at hs
        rw [polygonSegFlags, List.cons_append] at hs
        simp only [List.cons.injEq] at hs
        exact hs.1
      | false =>
        rw [if_neg Bool.false_ne_true] at hs
        rw [polylineSegFlags, List.cons_append] at hs
        simp only [List.cons.injEq] at hs
        exact hs.1

/-- The Rectangle region satisfies the structural conditions. -/
theorem rectangle_region_ok (p0 p1 p2 p3 : POINT) :
    firstIsMove (strippedFlags (closeLastFlag (retagFirst PT_MOVETO
        ([p0, p1, p2, p3].map fun q => (q, PT_LINETO))))) = true ∧
    bezRuns (strippedFlags (closeLastFlag (retagFirst PT_MOVETO
        ([p0, p1, p2, p3].map fun q => (q, PT_LINETO))))) = true ∧
    flagsValid (closeLastFlag (retagFirst PT_MOVETO
        ([p0, p1, p2, p3].map fun q => (q, PT_LINETO)))) = true := by
  have hform : closeLastFlag (retagFirst PT_MOVETO
      ([p0, p1, p2, p3].map fun q => (q, PT_LINETO))) =
      [(p0, PT_MOVETO), (p1, PT_LINETO), (p2, PT_LINETO),
        (p3, PT_LINETO ||| PT_CLOSEFIGURE)] := rfl
  rw [hform]
  apply listOK_of_line_flags
  · intro e he
    simp only [List.mem_cons, List.not_mem_nil, or_false] at he
    rcases he with rfl | rfl | rfl | rfl
    · left
      rfl
    · right
      left
      rfl
    · right
      left
      rfl
    · right
      right
      rfl
  · intro a t h
    injection h with h1 _
    rw [← h1]

/-- Every legal recorder call preserves the recorder invariant. -/
theorem execCall_pathOK (c : RecCall) (p : gdi_path) (hl : legalCall c = true)
    (hp : pathOK p) : pathOK (execCall c p) := by
  obtain ⟨h1, h2, h3⟩ := hp
  cases c with
  | moveTo xf x y => exact ⟨h1, h2, h3⟩
  | lineTo xf x y =>
    exact pathOK_extend xf p [⟨x, y⟩] PT_LINETO (Or.inl rfl) ⟨h1, h2, h3⟩
  | polylineTo xf pts =>
    exact pathOK_extend xf p pts PT_LINETO (Or.inl rfl) ⟨h1, h2, h3⟩
  | polyBezierTo xf pts =>
    refine pathOK_extend xf p pts PT_BEZIERTO (Or.inr ⟨rfl, ?_⟩) ⟨h1, h2, h3⟩
    simpa [legalCall] using hl
  | polyline xf pts =>
    have hreg := polyline_region_ok xf pts
    have hres := listOK_append p.entries _ h1 h2 h3 (fun _ => hreg.1)
      hreg.2.1 hreg.2.2
    exact ⟨hres.1, hres.2.1, hres.2.2⟩
  | polygon xf pts =>
    have hreg := polygon_region_ok xf pts
    have hres := listOK_append p.entries _ h1 h2 h3 (fun _ => hreg.1)
      hreg.2.1 hreg.2.2
    exact ⟨hres.1, hres.2.1, hres.2.2⟩
  | polyBezier xf pts =>
    have hlen : pts.length % 3 = 1 := by simpa [legalCall] using hl
    have hreg := polyBezier_region_ok xf pts hlen
    have hres := listOK_append p.entries _ h1 h2 h3 (fun _ => hreg.1)
      hreg.2.1 hreg.2.2
    exact ⟨hres.1, hres.2.1, hres.2.2⟩
  | polyPolygon xf pts counts =>
    have hsum : (counts.map Int.toNat).sum ≤ pts.length := by
      simpa [legalCall] using hl
    show pathOK (pathdrv_PolyPolygon xf p pts counts).2
    rw [pathdrv_PolyPolygon]
    split_ifs with hA hB
    · exact ⟨h1, h2, h3⟩
    · exact ⟨h1, h2, h3⟩
    · have hcne : counts ≠ [] := fun h => hA (by rw [h]; rfl)
      have hne : counts.map Int.toNat ≠ [] := by
        intro h
        exact hcne (List.map_eq_nil_iff.mp h)
      have hge : ∀ c' ∈ counts.map Int.toNat, 2 ≤ c' := by
        intro c' hc'
        obtain ⟨c, hc, rfl⟩ := List.mem_map.1 hc'
        rw [List.any_eq_true] at hB
        have hnlt : ¬c < 2 := by
          intro hlt
          exact hB ⟨c, hc, by simpa using hlt⟩
        omega
      have hsum' : (counts.map Int.toNat).sum ≤ (pts.map xf).length := by
        rw [List.length_map]
        exact hsum
      have hreg := polyPoly_region_ok true (counts.map Int.toNat) (pts.map xf)
        hne hge hsum'
      have hres := listOK_append p.entries _ h1 h2 h3 (fun _ => hreg.1)
        hreg.2.1 hreg.2.2
      exact ⟨hres.1, hres.2.1, hres.2.2⟩
  | polyPolyline xf pts counts =>
    have hsum : counts.sum ≤ pts.length := by simpa [legalCall] using hl
    show pathOK (pathdrv_PolyPolyline xf p pts counts).2
    rw [pathdrv_PolyPolyline]
    split_ifs with hA hB
    · exact ⟨h1, h2, h3⟩
    · exact ⟨h1, h2, h3⟩
    · have hne : counts ≠ [] := fun h => hA (by rw [h]; rfl)
      have hge : ∀ c ∈ counts, 2 ≤ c := by
        intro c hc
        rw [List.any_eq_true] at hB
        have hnlt : ¬c < 2 := by
          intro hlt
          exact hB ⟨c, hc, by simpa using hlt⟩
        omega
      have hsum' : counts.sum ≤ (pts.map xf).length := by
        rw [List.length_map]
        exact hsum
      have hreg := polyPoly_region_ok false counts (pts.map xf) hne hge hsum'
      have hres := listOK_append p.entries _ h1 h2 h3 (fun _ => hreg.1)
        hreg.2.1 hreg.2.2
      exact ⟨hres.1, hres.2.1, hres.2.2⟩
  | polyDraw xf items =>
    exact polyDrawLoop_pathOK xf p.pos items p (initLastmove p.entries)
      ⟨h1, h2, h3⟩
  | rectangle xf compat x1 y1 x2 y2 =>
    have hreg := rectangle_region_ok
      ⟨(PATH_CheckCorners xf compat x1 y1 x2 y2).2.x,
        (PATH_CheckCorners xf compat x1 y1 x2 y2).1.y⟩
      (PATH_CheckCorners xf compat x1 y1 x2 y2).1
      ⟨(PATH_CheckCorners xf compat x1 y1 x2 y2).1.x,
        (PATH_CheckCorners xf compat x1 y1 x2 y2).2.y⟩
      (PATH_CheckCorners xf compat x1 y1 x2 y2).2
    have hres := listOK_append p.entries _ h1 h2 h3 (fun _ => hreg.1)
      hreg.2.1 hreg.2.2
    exact ⟨hres.1, hres.2.1, hres.2.2⟩
  | closeFigure =>
    show pathOK (pathdrv_CloseFigure p)
    rw [pathdrv_CloseFigure]
    split_ifs with h
    · exact ⟨h1, h2, h3⟩
    · exact pathOK_close p ⟨h1, h2, h3⟩

/-- A sequence of legal recorder calls preserves the invariant. -/
theorem runCalls_pathOK :
    ∀ (calls : List RecCall) (p : gdi_path),
      calls.all legalCall = true → pathOK p → pathOK (runCalls calls p) := by
  intro calls
  induction calls with
  | nil =>
    intro p h hp
    exact hp
  | cons c rest ih =>
    intro p h hp
    rw [List.all_cons, Bool.and_eq_true] at h
    exact ih (execCall c p) h.2 (execCall_pathOK c p h.1 hp)

/-- C1: every path produced by a sequence of legal recorder calls starting
from a fresh recording has a MOVE first tag (if non-empty) and all its
maximal Bezier runs (CLOSE bits ignored) of length divisible by three. -/
theorem claim_C1 (calls : List RecCall) (pos : POINT)
    (h : calls.all legalCall = true) :
    firstIsMove (pathFlags (runCalls calls (nulldrv_BeginPath pos))) = true ∧
    bezRuns (pathFlags (runCalls calls (nulldrv_BeginPath pos))) = true := by
  have h0 : pathOK (nulldrv_BeginPath pos) := ⟨rfl, rfl, rfl⟩
  have hres := runCalls_pathOK calls (nulldrv_BeginPath pos) h h0
  exact ⟨hres.1, hres.2.1⟩

/-- Witness for C1 on a concrete mixed call sequence. -/
theorem claim_C1_witness :
    ([RecCall.moveTo id 0 0, RecCall.lineTo id 3 4,
      RecCall.polyBezierTo id [⟨1, 1⟩, ⟨2, 2⟩, ⟨3, 3⟩],
      RecCall.closeFigure, RecCall.rectangle id true 0 0 5 5,
      RecCall.polyDraw id [(⟨4, 4⟩, 6), (⟨5, 5⟩, 3)]].all legalCall = true) ∧
    firstIsMove (pathFlags (runCalls
      [RecCall.moveTo id 0 0, RecCall.lineTo id 3 4,
       RecCall.polyBezierTo id [⟨1, 1⟩, ⟨2, 2⟩, ⟨3, 3⟩],
       RecCall.closeFigure, RecCall.rectangle id true 0 0 5 5,
       RecCall.polyDraw id [(⟨4, 4⟩, 6), (⟨5, 5⟩, 3)]]
      (nulldrv_BeginPath ⟨0, 0⟩))) = true ∧
    bezRuns (pathFlags (runCalls
      [RecCall.moveTo id 0 0, RecCall.lineTo id 3 4,
       RecCall.polyBezierTo id [⟨1, 1⟩, ⟨2, 2⟩, ⟨3, 3⟩],
       RecCall.closeFigure, RecCall.rectangle id true 0 0 5 5,
       RecCall.polyDraw id [(⟨4, 4⟩, 6), (⟨5, 5⟩, 3)]]
      (nulldrv_BeginPath ⟨0, 0⟩))) = true :=
  ⟨by rfl,
    (claim_C1 [RecCall.moveTo id 0 0, RecCall.lineTo id 3 4,
      RecCall.polyBezierTo id [⟨1, 1⟩, ⟨2, 2⟩, ⟨3, 3⟩],
      RecCall.closeFigure, RecCall.rectangle id true 0 0 5 5,
      RecCall.polyDraw id [(⟨4, 4⟩, 6), (⟨5, 5⟩, 3)]] ⟨0, 0⟩ (by rfl)).1,
    (claim_C1 [RecCall.moveTo id 0 0, RecCall.lineTo id 3 4,
      RecCall.polyBezierTo id [⟨1, 1⟩, ⟨2, 2⟩, ⟨3, 3⟩],
      RecCall.closeFigure, RecCall.rectangle id true 0 0 5 5,
      RecCall.polyDraw id [(⟨4, 4⟩, 6), (⟨5, 5⟩, 3)]] ⟨0, 0⟩ (by rfl)).2⟩
